import Mathlib

/-!
Verification of the USB descriptor parser of `tiny-linux-usb`
(`src/descriptor.rs` and the endpoint lookup of `src/lib.rs`).

Byte buffers are modelled as `List Nat` (each element one byte); multi-byte
fields are assembled little-endian, matching the packed `repr(C)` layout read
by `std::ptr::read` on a little-endian host.  Fallible Rust functions
returning `Result<T, Error>` become `Except Error T`.
-/

/-- Error enum of `descriptor.rs` (lines 164-170). -/
inductive Error where
  | InvalidSize
  | InvalidType
  | DeviceWasNotFirst
  | TooManyDevices
  deriving DecidableEq

/-- The 18-byte `DeviceDescriptor` struct (descriptor.rs lines 15-30). -/
structure DeviceDescriptor where
  bLength : Nat
  bDescriptorType : Nat
  bcdUSB : Nat
  bDeviceClass : Nat
  bDeviceSubClass : Nat
  bDeviceProtocol : Nat
  bMaxPacketSize0 : Nat
  idVendor : Nat
  idProduct : Nat
  bcdDevice : Nat
  iManufacturer : Nat
  iProduct : Nat
  iSerialNumber : Nat
  bNumConfigurations : Nat
  deriving DecidableEq

/-- The 9-byte `ConfigurationDescriptor` struct (descriptor.rs lines 38-47). -/
structure ConfigurationDescriptor where
  bLength : Nat
  bDescriptorType : Nat
  wTotalLength : Nat
  bNumInterfaces : Nat
  bConfigurationValue : Nat
  iConfiguration : Nat
  bmAttributes : Nat
  MaxPower : Nat
  deriving DecidableEq

/-- The 9-byte `InterfaceDescriptor` struct (descriptor.rs lines 55-65). -/
structure InterfaceDescriptor where
  bLength : Nat
  bDescriptorType : Nat
  bInterfaceNumber : Nat
  bAlternateSetting : Nat
  bNumEndpoints : Nat
  bInterfaceClass : Nat
  bInterfaceSubClass : Nat
  bInterfaceProtocol : Nat
  iInterface : Nat
  deriving DecidableEq

/-- The 7-byte `EndpointDescriptor` struct (descriptor.rs lines 72-82). -/
structure EndpointDescriptor where
  bLength : Nat
  bDescriptorType : Nat
  bEndpointAddress : Nat
  bmAttributes : Nat
  wMaxPacketSize : Nat
  bInterval : Nat
  deriving DecidableEq

/-- Byte at index `i` of a buffer (out-of-range reads default to 0; all
reads below are guarded by length checks as in the source). -/
def byteAt (data : List Nat) (i : Nat) : Nat :=
  data.getD i 0

/-- Little-endian 16-bit field at byte offset `i`, as read by `std::ptr::read`
of a packed struct on a little-endian host. -/
def u16le (data : List Nat) (i : Nat) : Nat :=
  byteAt data i + 256 * byteAt data (i + 1)

/-- Field-by-field decoding of the packed `DeviceDescriptor` layout. -/
def DeviceDescriptor.ofBytes (data : List Nat) : DeviceDescriptor where
  bLength := byteAt data 0
  bDescriptorType := byteAt data 1
  bcdUSB := u16le data 2
  bDeviceClass := byteAt data 4
  bDeviceSubClass := byteAt data 5
  bDeviceProtocol := byteAt data 6
  bMaxPacketSize0 := byteAt data 7
  idVendor := u16le data 8
  idProduct := u16le data 10
  bcdDevice := u16le data 12
  iManufacturer := byteAt data 14
  iProduct := byteAt data 15
  iSerialNumber := byteAt data 16
  bNumConfigurations := byteAt data 17

/-- Field-by-field decoding of the packed `ConfigurationDescriptor` layout. -/
def ConfigurationDescriptor.ofBytes (data : List Nat) : ConfigurationDescriptor where
  bLength := byteAt data 0
  bDescriptorType := byteAt data 1
  wTotalLength := u16le data 2
  bNumInterfaces := byteAt data 4
  bConfigurationValue := byteAt data 5
  iConfiguration := byteAt data 6
  bmAttributes := byteAt data 7
  MaxPower := byteAt data 8

/-- Field-by-field decoding of the packed `InterfaceDescriptor` layout. -/
def InterfaceDescriptor.ofBytes (data : List Nat) : InterfaceDescriptor where
  bLength := byteAt data 0
  bDescriptorType := byteAt data 1
  bInterfaceNumber := byteAt data 2
  bAlternateSetting := byteAt data 3
  bNumEndpoints := byteAt data 4
  bInterfaceClass := byteAt data 5
  bInterfaceSubClass := byteAt data 6
  bInterfaceProtocol := byteAt data 7
  iInterface := byteAt data 8

/-- Field-by-field decoding of the packed `EndpointDescriptor` layout. -/
def EndpointDescriptor.ofBytes (data : List Nat) : EndpointDescriptor where
  bLength := byteAt data 0
  bDescriptorType := byteAt data 1
  bEndpointAddress := byteAt data 2
  bmAttributes := byteAt data 3
  wMaxPacketSize := u16le data 4
  bInterval := byteAt data 6

/-- Generic `parse_descriptor<T>` (descriptor.rs lines 239-244): check the
record is at least `size_of::<T>()` bytes, then reinterpret the prefix as `T`
(`size` is `size_of::<T>()`, `read` the layout decoding of `T`). -/
def parse_descriptor {T : Type} (size : Nat) (read : List Nat → T) (data : List Nat) :
    Except Error T :=
  if data.length < size then .error .InvalidSize
  else .ok (read data)

/-- The `AnyDescriptor` enum produced by the `any_descriptor!` macro
(descriptor.rs lines 185-214). -/
inductive AnyDescriptor where
  | DeviceDescriptor (d : DeviceDescriptor)
  | ConfigurationDescriptor (d : ConfigurationDescriptor)
  | InterfaceDescriptor (d : InterfaceDescriptor)
  | EndpointDescriptor (d : EndpointDescriptor)
  | Other (tag : Nat)
  deriving DecidableEq

/-- Rust `matches!(d, AnyDescriptor::DeviceDescriptor(..))` used in
`DeviceTree::from_byte_array`. -/
def AnyDescriptor.isDevice : AnyDescriptor → Bool
  | .DeviceDescriptor _ => true
  | _ => false

/-- `TryFrom<&AnyDescriptor> for &DeviceDescriptor` generated by the
`any_descriptor!` macro: narrow or fail with `InvalidType`. -/
def tryIntoDevice : AnyDescriptor → Except Error DeviceDescriptor
  | .DeviceDescriptor v => .ok v
  | _ => .error .InvalidType

/-- `TryFrom<&AnyDescriptor> for &ConfigurationDescriptor`. -/
def tryIntoConfiguration : AnyDescriptor → Except Error ConfigurationDescriptor
  | .ConfigurationDescriptor v => .ok v
  | _ => .error .InvalidType

/-- `TryFrom<&AnyDescriptor> for &InterfaceDescriptor`. -/
def tryIntoInterface : AnyDescriptor → Except Error InterfaceDescriptor
  | .InterfaceDescriptor v => .ok v
  | _ => .error .InvalidType

/-- `TryFrom<&AnyDescriptor> for &EndpointDescriptor`. -/
def tryIntoEndpoint : AnyDescriptor → Except Error EndpointDescriptor
  | .EndpointDescriptor v => .ok v
  | _ => .error .InvalidType

/-- The classifier: the `match descriptor_data[1]` dispatch in the loop body
of `byte_array_to_descriptors` (descriptor.rs lines 254-260). -/
def classify_descriptor (descriptor_data : List Nat) : Except Error AnyDescriptor :=
  match byteAt descriptor_data 1 with
  | 1 => (parse_descriptor 18 DeviceDescriptor.ofBytes descriptor_data).map .DeviceDescriptor
  | 2 => (parse_descriptor 9 ConfigurationDescriptor.ofBytes descriptor_data).map
      .ConfigurationDescriptor
  | 4 => (parse_descriptor 9 InterfaceDescriptor.ofBytes descriptor_data).map
      .InterfaceDescriptor
  | 5 => (parse_descriptor 7 EndpointDescriptor.ofBytes descriptor_data).map
      .EndpointDescriptor
  | o => .ok (.Other o)

/-- The record scanner `byte_array_to_descriptors` (descriptor.rs lines
246-264): while at least 2 bytes remain, read the declared length `l` from
the first byte, fail with `InvalidSize` when `l < 2` or `l` exceeds the
remaining bytes, otherwise classify the `l`-byte record and advance by `l`. -/
def byte_array_to_descriptors (data : List Nat) : Except Error (List AnyDescriptor) :=
  if h : data.length < 2 then .ok []
  else
    let l := byteAt data 0
    if h2 : l < 2 ∨ data.length < l then .error .InvalidSize
    else
      match classify_descriptor (data.take l) with
      | .error e => .error e
      | .ok d =>
        match byte_array_to_descriptors (data.drop l) with
        | .error e => .error e
        | .ok rest => .ok (d :: rest)
termination_by data.length
decreasing_by
  simp only [List.length_drop]
  omega

/-- Rust `collect::<Result<Vec<_>>>()`: succeed with the list of values when
every element is `Ok`, otherwise surface the first error. -/
def collectExcept {E α : Type} : List (Except E α) → Except E (List α)
  | [] => .ok []
  | x :: xs =>
    match x with
    | .error e => .error e
    | .ok a =>
      match collectExcept xs with
      | .error e => .error e
      | .ok rest => .ok (a :: rest)

/-- The `split_points` vector of `split_by_parent_desc` (descriptor.rs lines
221-225): enumerate the sequence and keep the indices (with narrowed values)
where the fallible narrowing to `T` succeeds. -/
def split_points {T : Type} (tryFrom : AnyDescriptor → Except Error T)
    (descriptors : List AnyDescriptor) : List (Nat × T) :=
  descriptors.enum.filterMap fun p => ((tryFrom p.2).toOption).map fun t => (p.1, t)

/-- The slice-construction loop of `split_by_parent_desc` (descriptor.rs lines
226-235): every split point yields its marker plus the sub-slice of
`descriptors` from its index up to the next split point's index (or the end
of the sequence for the last split point). -/
def slices_of_split_points {T : Type} (descriptors : List AnyDescriptor) :
    List (Nat × T) → List (T × List AnyDescriptor)
  | [] => []
  | (sp, d) :: rest =>
    (d,
      match rest with
      | (sp2, _) :: _ => (descriptors.drop sp).take (sp2 - sp)
      | [] => descriptors.drop sp) :: slices_of_split_points descriptors rest

/-- The hierarchical grouper `split_by_parent_desc` (descriptor.rs lines
216-237), generic over the marker type via its fallible narrowing. -/
def split_by_parent_desc {T : Type} (tryFrom : AnyDescriptor → Except Error T)
    (descriptors : List AnyDescriptor) : List (T × List AnyDescriptor) :=
  slices_of_split_points descriptors (split_points tryFrom descriptors)

/-- `InterfaceTree` (descriptor.rs lines 98-101). -/
structure InterfaceTree where
  desc : InterfaceDescriptor
  endpoints : List EndpointDescriptor
  deriving DecidableEq

/-- `ConfigurationTree` (descriptor.rs lines 92-95). -/
structure ConfigurationTree where
  desc : ConfigurationDescriptor
  interfaces : List InterfaceTree
  deriving DecidableEq

/-- `DeviceTree` (descriptor.rs lines 86-89). -/
structure DeviceTree where
  desc : DeviceDescriptor
  configurations : List ConfigurationTree
  deriving DecidableEq

/-- `InterfaceTree::from_descriptors` (descriptor.rs lines 147-160): keep
exactly the records of the children slice that narrow to
`EndpointDescriptor`, discarding the `InvalidType` branch via `.ok()`. -/
def InterfaceTree.from_descriptors (desc : InterfaceDescriptor)
    (descriptors : List AnyDescriptor) : Except Error InterfaceTree :=
  .ok { desc, endpoints := descriptors.filterMap fun d => (tryIntoEndpoint d).toOption }

/-- `ConfigurationTree::from_descriptors` (descriptor.rs lines 133-146):
group the children slice by `InterfaceDescriptor` markers and build each
interface tree. -/
def ConfigurationTree.from_descriptors (desc : ConfigurationDescriptor)
    (descriptors : List AnyDescriptor) : Except Error ConfigurationTree :=
  match collectExcept ((split_by_parent_desc tryIntoInterface descriptors).map
      fun p => InterfaceTree.from_descriptors p.1 p.2) with
  | .error e => .error e
  | .ok interfaces => .ok { desc, interfaces }

/-- `DeviceTree::from_byte_array` (descriptor.rs lines 104-130): scan and
classify, then check non-emptiness, the device count, and that the first
record is the device descriptor, then group by configurations. -/
def DeviceTree.from_byte_array (data : List Nat) : Except Error DeviceTree :=
  match byte_array_to_descriptors data with
  | .error e => .error e
  | .ok [] => .error .InvalidSize
  | .ok (first :: rest) =>
    if 1 < ((first :: rest).filter fun d => d.isDevice).length then
      .error .TooManyDevices
    else
      match first with
      | .DeviceDescriptor desc =>
        match collectExcept ((split_by_parent_desc tryIntoConfiguration (first :: rest)).map
            fun p => ConfigurationTree.from_descriptors p.1 p.2) with
        | .error e => .error e
        | .ok configurations => .ok { desc, configurations }
      | _ => .error .DeviceWasNotFirst

/-- Error enum of `lib.rs` (lines 36-43); the payload-carrying I/O variants
are modelled without their OS payloads. -/
inductive UsbError where
  | DescriptorError (e : Error)
  | IoError
  | IoctlError
  | InvalidEndpoint
  | DeviceDisconnected
  | NotFound
  deriving DecidableEq

/-- The inner search loop of `UsbDevice::claim_endpoint` (lib.rs lines
95-107): walk the interfaces of the first configuration in source order and
return the interface number of the first interface owning an endpoint with
the requested address. -/
def find_interface_for_endpoint : List InterfaceTree → Nat → Option Nat
  | [], _ => none
  | interface :: rest, endpoint_address =>
    if interface.endpoints.any fun endpoint => endpoint.bEndpointAddress == endpoint_address then
      some interface.desc.bInterfaceNumber
    else
      find_interface_for_endpoint rest endpoint_address

/-- The pure lookup performed by `UsbDevice::claim_endpoint` (lib.rs lines
92-112) on an already-parsed device tree: take configuration 0 (or fail with
`InvalidEndpoint`), search its interfaces for the endpoint address, and
return the interface number to claim (the subsequent `claim_interface`
syscall is external to the parser core and not modelled). -/
def claim_endpoint_lookup (tree : DeviceTree) (endpoint_address : Nat) : Except UsbError Nat :=
  match tree.configurations with
  | [] => .error .InvalidEndpoint
  | first_configuration :: _ =>
    match find_interface_for_endpoint first_configuration.interfaces endpoint_address with
    | some interface => .ok interface
    | none => .error .InvalidEndpoint

/-!
## Specification-side definitions

These follow the wording of the specification / claims and are compared
against the source-derived definitions above.
-/

/-- Modelled from the spec: the Binary Record Scanner contract of §4.1 taken
alone (claim C3's wording): consume from offset 0 while at least 2 bytes
remain, read the declared length `l`, fail with `InvalidSize` when `l < 2` or
`l` exceeds the remaining bytes, otherwise emit the next `l` bytes as one raw
record and advance by exactly `l`. -/
def scan_records (data : List Nat) : Except Error (List (List Nat)) :=
  if h : data.length < 2 then .ok []
  else
    let l := byteAt data 0
    if h2 : l < 2 ∨ data.length < l then .error .InvalidSize
    else
      match scan_records (data.drop l) with
      | .error e => .error e
      | .ok rest => .ok (data.take l :: rest)
termination_by data.length
decreasing_by
  simp only [List.length_drop]
  omega

/-- Marker test used by the grouper specification: a record is skipped by the
grouper for marker type `T` exactly when its fallible narrowing (after
`.ok()`) yields nothing. -/
def notMarker {T : Type} (tryFrom : AnyDescriptor → Except Error T) (d : AnyDescriptor) : Bool :=
  ((tryFrom d).toOption).isNone

/-- Specification of the hierarchical grouper (claim C5's wording, spec
§4.3): walk the classified sequence; each record of marker type `T` opens a
pair whose children slice is the marker itself followed by the records up to
(but not including) the next marker; records before the first marker are
skipped; no marker yields the empty output. -/
def split_spec {T : Type} (tryFrom : AnyDescriptor → Except Error T) :
    List AnyDescriptor → List (T × List AnyDescriptor)
  | [] => []
  | d :: rest =>
    match (tryFrom d).toOption with
    | none => split_spec tryFrom rest
    | some t =>
      (t, d :: rest.takeWhile (notMarker tryFrom)) ::
        split_spec tryFrom (rest.dropWhile (notMarker tryFrom))
termination_by ds => ds.length
decreasing_by
  · simp only [List.length_cons]
    omega
  · simp only [List.length_cons]
    have key : ∀ (l : List AnyDescriptor), (l.dropWhile (notMarker tryFrom)).length ≤ l.length := by
      intro l
      induction l with
      | nil => simp [List.dropWhile]
      | cons a l ih =>
        simp only [List.dropWhile]
        cases notMarker tryFrom a <;> simp <;> omega
    exact Nat.lt_succ_of_le (key rest)

/-- Well-formed 18-byte device descriptor record: correct length, declared
length byte 18 and type tag 1. -/
def WfDeviceBytes (r : List Nat) : Prop :=
  r.length = 18 ∧ byteAt r 0 = 18 ∧ byteAt r 1 = 1

/-- Well-formed 9-byte configuration descriptor record (tag 2). -/
def WfConfigBytes (r : List Nat) : Prop :=
  r.length = 9 ∧ byteAt r 0 = 9 ∧ byteAt r 1 = 2

/-- Well-formed 9-byte interface descriptor record (tag 4). -/
def WfInterfaceBytes (r : List Nat) : Prop :=
  r.length = 9 ∧ byteAt r 0 = 9 ∧ byteAt r 1 = 4

/-- Well-formed 7-byte endpoint descriptor record (tag 5). -/
def WfEndpointBytes (r : List Nat) : Prop :=
  r.length = 7 ∧ byteAt r 0 = 7 ∧ byteAt r 1 = 5

/-- Shape of a well-formed synthetic input: the device record bytes together
with, per configuration, the configuration record bytes and, per interface,
the interface record bytes and its endpoint record bytes. -/
abbrev WfConfigs := List (List Nat × List (List Nat × List (List Nat)))

/-- Well-formedness of a synthetic input (claim C1, spec §8): every record
has its exact fixed length, a matching declared length byte and the type tag
of its level. -/
def WfInput (dev : List Nat) (configs : WfConfigs) : Prop :=
  WfDeviceBytes dev ∧
    ∀ c ∈ configs, WfConfigBytes c.1 ∧
      ∀ i ∈ c.2, WfInterfaceBytes i.1 ∧ ∀ e ∈ i.2, WfEndpointBytes e

/-- Raw records of the well-formed buffer that follow the device record, in
source order. -/
def wf_records_tail (configs : WfConfigs) : List (List Nat) :=
  configs.flatMap fun c => c.1 :: c.2.flatMap fun i => i.1 :: i.2

/-- The well-formed buffer of claim C1: concatenation of one device record,
then per configuration its record followed by, per interface, its record
followed by its endpoint records. -/
def wf_buffer (dev : List Nat) (configs : WfConfigs) : List Nat :=
  (dev :: wf_records_tail configs).flatten

/-- The tree the parser is expected to produce from a well-formed buffer:
every level in source order, every descriptor decoded field-by-field from
its own record bytes. -/
def wf_tree (dev : List Nat) (configs : WfConfigs) : DeviceTree where
  desc := DeviceDescriptor.ofBytes dev
  configurations := configs.map fun c =>
    { desc := ConfigurationDescriptor.ofBytes c.1
      interfaces := c.2.map fun i =>
        { desc := InterfaceDescriptor.ofBytes i.1
          endpoints := i.2.map EndpointDescriptor.ofBytes } }

/-- Shape of a claim-C10 synthetic input: per configuration, the
configuration record bytes, stray endpoint records placed before the first
interface record, and the interface blocks. -/
abbrev StrayConfigs := List (List Nat × List (List Nat) × List (List Nat × List (List Nat)))

/-- Well-formedness of a claim-C10 input: the stray records before the first
configuration are interface or endpoint records, the stray records inside a
configuration before its first interface are endpoint records, and all
records are well-formed for their tag. -/
def WfStrayInput (dev : List Nat) (strayTop : List (List Nat)) (configs : StrayConfigs) : Prop :=
  WfDeviceBytes dev ∧
    (∀ s ∈ strayTop, WfInterfaceBytes s ∨ WfEndpointBytes s) ∧
    ∀ c ∈ configs, WfConfigBytes c.1 ∧
      (∀ s ∈ c.2.1, WfEndpointBytes s) ∧
      ∀ i ∈ c.2.2, WfInterfaceBytes i.1 ∧ ∀ e ∈ i.2, WfEndpointBytes e

/-- Raw records of a claim-C10 buffer following the device record. -/
def stray_records_tail (strayTop : List (List Nat)) (configs : StrayConfigs) :
    List (List Nat) :=
  strayTop ++ configs.flatMap fun c => c.1 :: (c.2.1 ++ c.2.2.flatMap fun i => i.1 :: i.2)

/-- The claim-C10 buffer: a well-formed buffer with stray interface/endpoint
records between the device record and the first configuration record, and
stray endpoint records between each configuration record and its first
interface record. -/
def stray_buffer (dev : List Nat) (strayTop : List (List Nat)) (configs : StrayConfigs) :
    List Nat :=
  (dev :: stray_records_tail strayTop configs).flatten

/-- The tree expected from a claim-C10 buffer: the stray records appear
nowhere. -/
def stray_tree (dev : List Nat) (configs : StrayConfigs) : DeviceTree where
  desc := DeviceDescriptor.ofBytes dev
  configurations := configs.map fun c =>
    { desc := ConfigurationDescriptor.ofBytes c.1
      interfaces := c.2.2.map fun i =>
        { desc := InterfaceDescriptor.ofBytes i.1
          endpoints := i.2.map EndpointDescriptor.ofBytes } }

/-- A raw record with an unrecognized type tag (claim C6): declared length at
least 2 and equal to the record's length, and a tag other than 1, 2, 4, 5. -/
def OtherRecordBytes (r : List Nat) : Prop :=
  2 ≤ r.length ∧ byteAt r 0 = r.length ∧
    byteAt r 1 ≠ 1 ∧ byteAt r 1 ≠ 2 ∧ byteAt r 1 ≠ 4 ∧ byteAt r 1 ≠ 5

instance (r : List Nat) : Decidable (WfDeviceBytes r) := by
  unfold WfDeviceBytes
  infer_instance

instance (r : List Nat) : Decidable (WfConfigBytes r) := by
  unfold WfConfigBytes
  infer_instance

instance (r : List Nat) : Decidable (WfInterfaceBytes r) := by
  unfold WfInterfaceBytes
  infer_instance

instance (r : List Nat) : Decidable (WfEndpointBytes r) := by
  unfold WfEndpointBytes
  infer_instance

instance (dev : List Nat) (configs : WfConfigs) : Decidable (WfInput dev configs) := by
  unfold WfInput
  infer_instance

instance (dev : List Nat) (strayTop : List (List Nat)) (configs : StrayConfigs) :
    Decidable (WfStrayInput dev strayTop configs) := by
  unfold WfStrayInput
  infer_instance

instance (r : List Nat) : Decidable (OtherRecordBytes r) := by
  unfold OtherRecordBytes
  infer_instance

/-- `Interleave P rs rs'` holds when `rs'` is `rs` with extra records
satisfying `P` inserted at arbitrary positions. -/
inductive Interleave (P : List Nat → Prop) : List (List Nat) → List (List Nat) → Prop where
  | nil : Interleave P [] []
  | keep (r : List Nat) {rs rs' : List (List Nat)} :
      Interleave P rs rs' → Interleave P (r :: rs) (r :: rs')
  | ins (o : List Nat) {rs rs' : List (List Nat)} :
      P o → Interleave P rs rs' → Interleave P rs (o :: rs')

/-- `InsOthers ds ds'` holds when the classified sequence `ds'` is `ds` with
extra `Other` records inserted at arbitrary positions. -/
inductive InsOthers : List AnyDescriptor → List AnyDescriptor → Prop where
  | nil : InsOthers [] []
  | keep (d : AnyDescriptor) {ds ds' : List AnyDescriptor} :
      InsOthers ds ds' → InsOthers (d :: ds) (d :: ds')
  | ins (t : Nat) {ds ds' : List AnyDescriptor} :
      InsOthers ds ds' → InsOthers ds (.Other t :: ds')

/-- The value the classifier assigns to a record whose tag-specific length
check succeeds. -/
def classify_value (r : List Nat) : AnyDescriptor :=
  match byteAt r 1 with
  | 1 => .DeviceDescriptor (DeviceDescriptor.ofBytes r)
  | 2 => .ConfigurationDescriptor (ConfigurationDescriptor.ofBytes r)
  | 4 => .InterfaceDescriptor (InterfaceDescriptor.ofBytes r)
  | 5 => .EndpointDescriptor (EndpointDescriptor.ofBytes r)
  | o => .Other o

/-- Classified value of a well-formed endpoint record. -/
def endpoint_ds (e : List Nat) : AnyDescriptor :=
  .EndpointDescriptor (EndpointDescriptor.ofBytes e)

/-- Classified sequence of one interface block: the interface marker followed
by its endpoint records. -/
def iface_block_ds (i : List Nat × List (List Nat)) : List AnyDescriptor :=
  .InterfaceDescriptor (InterfaceDescriptor.ofBytes i.1) :: i.2.map endpoint_ds

/-- Classified sequence of one claim-C10 configuration block: the
configuration marker, the stray endpoint records, then the interface
blocks. -/
def config_block_ds (c : List Nat × List (List Nat) × List (List Nat × List (List Nat))) :
    List AnyDescriptor :=
  .ConfigurationDescriptor (ConfigurationDescriptor.ofBytes c.1) ::
    (c.2.1.map endpoint_ds ++ c.2.2.flatMap iface_block_ds)

/-!
## Helper lemmas
-/

theorem dropWhile_length_le {α : Type} (p : α → Bool) (l : List α) :
    (l.dropWhile p).length ≤ l.length := by
  induction l with
  | nil => simp [List.dropWhile]
  | cons a l ih =>
    simp only [List.dropWhile]
    cases p a
    · simp
    · simp
      omega

theorem takeWhile_of_all {α : Type} {p : α → Bool} {l : List α}
    (h : ∀ x ∈ l, p x = true) : l.takeWhile p = l := by
  induction l with
  | nil => rfl
  | cons a l ih =>
    simp only [List.takeWhile, h a (by simp)]
    simp only [List.cons.injEq, true_and]
    exact ih fun x hx => h x (by simp [hx])

theorem dropWhile_of_all {α : Type} {p : α → Bool} {l : List α}
    (h : ∀ x ∈ l, p x = true) : l.dropWhile p = [] := by
  induction l with
  | nil => rfl
  | cons a l ih =>
    simp only [List.dropWhile, h a (by simp)]
    exact ih fun x hx => h x (by simp [hx])

theorem takeWhile_middle {α : Type} {p : α → Bool} {l1 l2 : List α} {y : α}
    (h1 : ∀ x ∈ l1, p x = true) (h2 : p y = false) :
    (l1 ++ y :: l2).takeWhile p = l1 := by
  induction l1 with
  | nil => simp [List.takeWhile, h2]
  | cons a l ih =>
    simp only [List.cons_append, List.takeWhile, h1 a (by simp)]
    simp only [List.cons.injEq, true_and]
    exact ih fun x hx => h1 x (by simp [hx])

theorem dropWhile_middle {α : Type} {p : α → Bool} {l1 l2 : List α} {y : α}
    (h1 : ∀ x ∈ l1, p x = true) (h2 : p y = false) :
    (l1 ++ y :: l2).dropWhile p = y :: l2 := by
  induction l1 with
  | nil => simp [List.dropWhile, h2]
  | cons a l ih =>
    simp only [List.cons_append, List.dropWhile, h1 a (by simp)]
    exact ih fun x hx => h1 x (by simp [hx])

/-!
## Scanner lemmas
-/

theorem scan_short {data : List Nat} (h : data.length < 2) :
    byte_array_to_descriptors data = .ok [] := by
  rw [byte_array_to_descriptors]
  simp [h]

theorem scan_cons_record {r : List Nat} (tail : List Nat)
    (hlen : 2 ≤ r.length) (hdecl : byteAt r 0 = r.length) :
    byte_array_to_descriptors (r ++ tail) =
      match classify_descriptor r with
      | .error e => .error e
      | .ok d =>
        match byte_array_to_descriptors tail with
        | .error e => .error e
        | .ok rest => .ok (d :: rest) := by
  rw [byte_array_to_descriptors]
  have hb : byteAt (r ++ tail) 0 = r.length := by
    unfold byteAt at hdecl ⊢
    rw [List.getD_append _ _ _ _ (by omega)]
    exact hdecl
  have hlen' : r.length ≤ (r ++ tail).length := by simp
  have htake : (r ++ tail).take r.length = r := List.take_left ..
  have hdrop : (r ++ tail).drop r.length = tail := List.drop_left ..
  simp only [List.length_append, hb]
  rw [dif_neg (by omega), dif_neg (by omega)]
  rw [htake, hdrop]

theorem except_map_error_iff {α β : Type} {f : α → β} {x : Except Error α} {e : Error} :
    x.map f = .error e ↔ x = .error e := by
  cases x <;> simp [Except.map]

theorem parse_error_eq {T : Type} {size : Nat} {read : List Nat → T} {data : List Nat} {e : Error}
    (h : parse_descriptor size read data = .error e) : e = .InvalidSize := by
  unfold parse_descriptor at h
  split at h <;> simp_all

theorem classify_error_eq {r : List Nat} {e : Error}
    (h : classify_descriptor r = .error e) : e = .InvalidSize := by
  unfold classify_descriptor at h
  split at h <;>
    first
      | exact parse_error_eq (except_map_error_iff.mp h)
      | simp at h

theorem scan_error_eq {data : List Nat} {e : Error}
    (h : byte_array_to_descriptors data = .error e) : e = .InvalidSize := by
  by_cases h2 : data.length < 2
  · rw [scan_short h2] at h
    exact absurd h (by simp)
  · rw [byte_array_to_descriptors] at h
    rw [dif_neg h2] at h
    by_cases h3 : byteAt data 0 < 2 ∨ data.length < byteAt data 0
    · rw [dif_pos h3] at h
      injection h with h4
      exact h4.symm
    · rw [dif_neg h3] at h
      rcases hc : classify_descriptor (data.take (byteAt data 0)) with e' | d
      · rw [hc] at h
        simp only at h
        injection h with h4
        subst h4
        exact classify_error_eq hc
      · rw [hc] at h
        simp only at h
        rcases hr : byte_array_to_descriptors (data.drop (byteAt data 0)) with e' | ds
        · rw [hr] at h
          simp only at h
          injection h with h4
          subst h4
          exact scan_error_eq hr
        · rw [hr] at h
          simp at h
termination_by data.length
decreasing_by
  simp only [List.length_drop]
  omega

/-!
## Classifier lemmas
-/

theorem classify_wf_device {r : List Nat} (h : WfDeviceBytes r) :
    classify_descriptor r = .ok (.DeviceDescriptor (DeviceDescriptor.ofBytes r)) := by
  obtain ⟨h1, _, h3⟩ := h
  unfold classify_descriptor
  rw [h3]
  simp [parse_descriptor, h1, Except.map]

theorem classify_wf_config {r : List Nat} (h : WfConfigBytes r) :
    classify_descriptor r = .ok (.ConfigurationDescriptor (ConfigurationDescriptor.ofBytes r)) := by
  obtain ⟨h1, _, h3⟩ := h
  unfold classify_descriptor
  rw [h3]
  simp [parse_descriptor, h1, Except.map]

theorem classify_wf_interface {r : List Nat} (h : WfInterfaceBytes r) :
    classify_descriptor r = .ok (.InterfaceDescriptor (InterfaceDescriptor.ofBytes r)) := by
  obtain ⟨h1, _, h3⟩ := h
  unfold classify_descriptor
  rw [h3]
  simp [parse_descriptor, h1, Except.map]

theorem classify_wf_endpoint {r : List Nat} (h : WfEndpointBytes r) :
    classify_descriptor r = .ok (.EndpointDescriptor (EndpointDescriptor.ofBytes r)) := by
  obtain ⟨h1, _, h3⟩ := h
  unfold classify_descriptor
  rw [h3]
  simp [parse_descriptor, h1, Except.map]

theorem classify_tag_other {r : List Nat} (h1 : byteAt r 1 ≠ 1) (h2 : byteAt r 1 ≠ 2)
    (h4 : byteAt r 1 ≠ 4) (h5 : byteAt r 1 ≠ 5) :
    classify_descriptor r = .ok (.Other (byteAt r 1)) := by
  unfold classify_descriptor
  rcases hb : byteAt r 1 with _ | _ | _ | _ | _ | _ | n <;>
    first
      | rfl
      | omega

theorem classify_value_device {r : List Nat} (h : WfDeviceBytes r) :
    classify_value r = .DeviceDescriptor (DeviceDescriptor.ofBytes r) := by
  unfold classify_value
  rw [h.2.2]

theorem classify_value_config {r : List Nat} (h : WfConfigBytes r) :
    classify_value r = .ConfigurationDescriptor (ConfigurationDescriptor.ofBytes r) := by
  unfold classify_value
  rw [h.2.2]

theorem classify_value_interface {r : List Nat} (h : WfInterfaceBytes r) :
    classify_value r = .InterfaceDescriptor (InterfaceDescriptor.ofBytes r) := by
  unfold classify_value
  rw [h.2.2]

theorem classify_value_endpoint {r : List Nat} (h : WfEndpointBytes r) :
    classify_value r = .EndpointDescriptor (EndpointDescriptor.ofBytes r) := by
  unfold classify_value
  rw [h.2.2]

theorem classify_value_other {r : List Nat} (h1 : byteAt r 1 ≠ 1) (h2 : byteAt r 1 ≠ 2)
    (h4 : byteAt r 1 ≠ 4) (h5 : byteAt r 1 ≠ 5) :
    classify_value r = .Other (byteAt r 1) := by
  unfold classify_value
  rcases hb : byteAt r 1 with _ | _ | _ | _ | _ | _ | n <;>
    first
      | rfl
      | omega

/-- Over the five record kinds occurring in the synthetic buffers, the
classifier succeeds with `classify_value`. -/
theorem classify_ok_of_kind {r : List Nat}
    (h : WfDeviceBytes r ∨ WfConfigBytes r ∨ WfInterfaceBytes r ∨ WfEndpointBytes r ∨
      OtherRecordBytes r) :
    classify_descriptor r = .ok (classify_value r) := by
  rcases h with h | h | h | h | h
  · rw [classify_wf_device h, classify_value_device h]
  · rw [classify_wf_config h, classify_value_config h]
  · rw [classify_wf_interface h, classify_value_interface h]
  · rw [classify_wf_endpoint h, classify_value_endpoint h]
  · obtain ⟨_, _, h1, h2, h4, h5⟩ := h
    rw [classify_tag_other h1 h2 h4 h5, classify_value_other h1 h2 h4 h5]

/-- Framing data of the five record kinds: at least 2 bytes, and the declared
length byte equals the record length. -/
theorem framing_of_kind {r : List Nat}
    (h : WfDeviceBytes r ∨ WfConfigBytes r ∨ WfInterfaceBytes r ∨ WfEndpointBytes r ∨
      OtherRecordBytes r) :
    2 ≤ r.length ∧ byteAt r 0 = r.length := by
  rcases h with ⟨h1, h2, _⟩ | ⟨h1, h2, _⟩ | ⟨h1, h2, _⟩ | ⟨h1, h2, _⟩ | ⟨h1, h2, _⟩ <;>
    exact ⟨by omega, by omega⟩

/-- Scanning a concatenation of self-framing records classifies each record
in order. -/
theorem scan_flatten_ok {rs : List (List Nat)}
    (h : ∀ r ∈ rs, WfDeviceBytes r ∨ WfConfigBytes r ∨ WfInterfaceBytes r ∨
      WfEndpointBytes r ∨ OtherRecordBytes r) :
    byte_array_to_descriptors rs.flatten = .ok (rs.map classify_value) := by
  induction rs with
  | nil => exact scan_short (by simp)
  | cons r rs ih =>
    have hk := h r (by simp)
    obtain ⟨hlen, hdecl⟩ := framing_of_kind hk
    rw [List.flatten_cons, scan_cons_record _ hlen hdecl, classify_ok_of_kind hk,
      ih fun x hx => h x (by simp [hx])]
    rfl

/-!
## Scanner versus the raw-record scanner specification (claim C3)
-/

theorem scan_records_short {data : List Nat} (h : data.length < 2) :
    scan_records data = .ok [] := by
  rw [scan_records]
  simp [h]

theorem scan_records_error_eq {data : List Nat} {e : Error}
    (h : scan_records data = .error e) : e = .InvalidSize := by
  by_cases h2 : data.length < 2
  · rw [scan_records_short h2] at h
    exact absurd h (by simp)
  · rw [scan_records] at h
    rw [dif_neg h2] at h
    by_cases h3 : byteAt data 0 < 2 ∨ data.length < byteAt data 0
    · rw [dif_pos h3] at h
      injection h with h4
      exact h4.symm
    · rw [dif_neg h3] at h
      rcases hr : scan_records (data.drop (byteAt data 0)) with e' | rs
      · rw [hr] at h
        simp only at h
        injection h with h4
        subst h4
        exact scan_records_error_eq hr
      · rw [hr] at h
        simp at h
termination_by data.length
decreasing_by
  simp only [List.length_drop]
  omega

/-- The fused scan-and-classify loop equals the raw-record scanner of the
specification composed with per-record classification. -/
theorem scan_decompose (data : List Nat) :
    byte_array_to_descriptors data =
      (scan_records data).bind fun rs => collectExcept (rs.map classify_descriptor) := by
  by_cases h : data.length < 2
  · rw [scan_short h, scan_records_short h]
    rfl
  · rw [byte_array_to_descriptors, scan_records]
    rw [dif_neg h, dif_neg h]
    by_cases h2 : byteAt data 0 < 2 ∨ data.length < byteAt data 0
    · rw [dif_pos h2, dif_pos h2]
      rfl
    · rw [dif_neg h2, dif_neg h2]
      have IH := scan_decompose (data.drop (byteAt data 0))
      rcases hs : scan_records (data.drop (byteAt data 0)) with e | rs
      · have he : e = .InvalidSize := scan_records_error_eq hs
        rw [hs] at IH
        rcases hc : classify_descriptor (data.take (byteAt data 0)) with e1 | d
        · have he1 : e1 = .InvalidSize := classify_error_eq hc
          simp only [Except.bind]
          rw [he, he1]
        · rw [IH]
          rfl
      · rw [hs] at IH
        rcases hc : classify_descriptor (data.take (byteAt data 0)) with e1 | d
        · simp only [Except.bind, List.map_cons, collectExcept, hc]
        · rw [IH]
          simp only [Except.bind, List.map_cons, collectExcept, hc]
          rcases collectExcept (rs.map classify_descriptor) with e2 | ds <;> rfl
termination_by data.length
decreasing_by
  simp only [List.length_drop]
  omega

/-!
## The index-based grouper equals the span-based grouper specification
-/

theorem enumFrom_add_map {α : Type} (m : Nat) :
    ∀ (l : List α) (n : Nat), l.enumFrom (n + m) = (l.enumFrom n).map fun q => (q.1 + m, q.2)
  | [], _ => rfl
  | x :: xs, n => by
    simp only [List.enumFrom, List.map_cons]
    congr 1
    rw [show n + m + 1 = n + 1 + m by omega]
    exact enumFrom_add_map m xs (n + 1)

theorem split_points_cons {T : Type} (tryFrom : AnyDescriptor → Except Error T)
    (d : AnyDescriptor) (rest : List AnyDescriptor) :
    split_points tryFrom (d :: rest) =
      match (tryFrom d).toOption with
      | some t => (0, t) :: (split_points tryFrom rest).map fun q => (q.1 + 1, q.2)
      | none => (split_points tryFrom rest).map fun q => (q.1 + 1, q.2) := by
  have key : (rest.enumFrom 1).filterMap (fun p => ((tryFrom p.2).toOption).map fun t => (p.1, t))
      = (split_points tryFrom rest).map fun q => (q.1 + 1, q.2) := by
    rw [show (1 : Nat) = 0 + 1 from rfl, enumFrom_add_map]
    unfold split_points
    rw [List.filterMap_map, List.map_filterMap]
    refine congrArg (fun f => List.filterMap f (rest.enumFrom 0)) ?_
    funext q
    show Option.map (fun t => (q.1 + 1, t)) ((tryFrom q.2).toOption) =
      Option.map (fun p => (p.1 + (0 + 1), p.2))
        (Option.map (fun t => (q.1, t)) ((tryFrom q.2).toOption))
    cases (tryFrom q.2).toOption <;> rfl
  unfold split_points
  show ((d :: rest).enumFrom 0).filterMap _ = _
  simp only [List.enumFrom, List.filterMap_cons]
  rw [key]
  rcases (tryFrom d).toOption with _ | t <;> rfl

theorem slices_shift {T : Type} (d : AnyDescriptor) (rest : List AnyDescriptor)
    (sps : List (Nat × T)) :
    slices_of_split_points (d :: rest) (sps.map fun q => (q.1 + 1, q.2)) =
      slices_of_split_points rest sps := by
  induction sps with
  | nil => rfl
  | cons q sps ih =>
    cases sps with
    | nil => simp [slices_of_split_points, List.drop_succ_cons]
    | cons q2 sps2 =>
      simp only [List.map_cons, slices_of_split_points, List.drop_succ_cons,
        Nat.succ_sub_succ] at ih ⊢
      exact congrArg (List.cons _) ih

theorem split_points_nil_all_none {T : Type} {tryFrom : AnyDescriptor → Except Error T} :
    ∀ {l : List AnyDescriptor}, split_points tryFrom l = [] →
      ∀ x ∈ l, (tryFrom x).toOption = none := by
  intro l
  induction l with
  | nil => intro _ x hx; exact absurd hx (by simp)
  | cons d rest ih =>
    intro h x hx
    rw [split_points_cons] at h
    rcases hd : (tryFrom d).toOption with _ | t
    · rw [hd] at h
      simp only [] at h
      have hrest := List.map_eq_nil_iff.mp h
      rcases List.mem_cons.mp hx with hx | hx
      · exact hx ▸ hd
      · exact ih hrest x hx
    · rw [hd] at h
      simp at h

theorem split_points_head_take {T : Type} {tryFrom : AnyDescriptor → Except Error T} :
    ∀ {l : List AnyDescriptor} {i : Nat} {t : T} {more : List (Nat × T)},
      split_points tryFrom l = (i, t) :: more →
      l.takeWhile (notMarker tryFrom) = l.take i := by
  intro l
  induction l with
  | nil => intro i t more h; exact absurd h (by simp [split_points])
  | cons d rest ih =>
    intro i t more h
    rw [split_points_cons] at h
    rcases hd : (tryFrom d).toOption with _ | u
    · rw [hd] at h
      simp only [] at h
      rcases hsp : split_points tryFrom rest with _ | ⟨q, l2⟩
      · rw [hsp] at h
        simp at h
      · rw [hsp] at h
        simp only [List.map_cons] at h
        have hq : (q.1 + 1, q.2) = (i, t) := by
          have := List.head_eq_of_cons_eq h
          exact this
        have hi : i = q.1 + 1 := by
          have := congrArg Prod.fst hq
          simp at this
          omega
        have htw : rest.takeWhile (notMarker tryFrom) = rest.take q.1 := by
          rcases q with ⟨q1, qt⟩
          exact ih hsp
        rw [List.takeWhile_cons]
        simp only [notMarker, hd, Option.isNone_none, if_pos]
        rw [htw, hi, List.take_succ_cons]
    · rw [hd] at h
      simp only [] at h
      have hi : i = 0 := by
        have := congrArg Prod.fst (List.head_eq_of_cons_eq h)
        simp at this
        omega
      rw [hi, List.take_zero, List.takeWhile_cons]
      simp [notMarker, hd]

theorem split_spec_dropWhile {T : Type} (tryFrom : AnyDescriptor → Except Error T) :
    ∀ l : List AnyDescriptor,
      split_spec tryFrom l = split_spec tryFrom (l.dropWhile (notMarker tryFrom)) := by
  intro l
  induction l with
  | nil => rfl
  | cons d rest ih =>
    rcases hd : (tryFrom d).toOption with _ | t
    · rw [List.dropWhile_cons]
      simp only [notMarker, hd, Option.isNone_none, if_pos]
      rw [← ih]
      rw [split_spec]
      simp [hd]
    · rw [List.dropWhile_cons]
      simp [notMarker, hd]

/-- The implementation's index-based grouper agrees with the span-based
grouper specification on every sequence and every marker type. -/
theorem split_parent_eq_spec {T : Type} (tryFrom : AnyDescriptor → Except Error T) :
    ∀ ds : List AnyDescriptor, split_by_parent_desc tryFrom ds = split_spec tryFrom ds := by
  intro ds
  induction ds with
  | nil =>
    rw [split_spec]
    rfl
  | cons d rest ih =>
    unfold split_by_parent_desc
    rw [split_points_cons]
    rcases hd : (tryFrom d).toOption with _ | t
    · simp only []
      rw [slices_shift]
      rw [split_spec]
      simp only [hd]
      exact ih
    · simp only []
      rcases hsp : split_points tryFrom rest with _ | ⟨⟨i, t2⟩, more⟩
      · have hall := split_points_nil_all_none hsp
        have htw : rest.takeWhile (notMarker tryFrom) = rest := by
          refine takeWhile_of_all fun x hx => ?_
          simp [notMarker, hall x hx]
        have hdw : rest.dropWhile (notMarker tryFrom) = [] := by
          refine dropWhile_of_all fun x hx => ?_
          simp [notMarker, hall x hx]
        rw [split_spec]
        simp only [hd, htw, hdw]
        simp [slices_of_split_points, split_spec]
      · rw [split_spec]
        simp only [hd]
        have htw : rest.takeWhile (notMarker tryFrom) = rest.take i :=
          split_points_head_take hsp
        rw [htw]
        have hslice : slices_of_split_points (d :: rest)
            ((0, t) :: ((i, t2) :: more).map fun q => (q.1 + 1, q.2)) =
            (t, d :: rest.take i) :: slices_of_split_points rest ((i, t2) :: more) := by
          simp only [List.map_cons, slices_of_split_points, List.drop_zero, Nat.sub_zero,
            List.take_succ_cons]
          exact congrArg (List.cons _) (slices_shift d rest ((i, t2) :: more))
        rw [hslice, ← hsp]
        show _ :: split_by_parent_desc tryFrom rest = _
        rw [ih, split_spec_dropWhile]

/-!
## Grouping of block-structured sequences
-/

theorem split_spec_skip_pre {T : Type} (tryFrom : AnyDescriptor → Except Error T) :
    ∀ (pre ds : List AnyDescriptor), (∀ d ∈ pre, (tryFrom d).toOption = none) →
      split_spec tryFrom (pre ++ ds) = split_spec tryFrom ds := by
  intro pre
  induction pre with
  | nil => intro ds _; rfl
  | cons p pre' ih =>
    intro ds h
    rw [List.cons_append, split_spec]
    simp only [h p (by simp)]
    exact ih ds fun d hd => h d (by simp [hd])

theorem split_spec_blocks {T : Type} (tryFrom : AnyDescriptor → Except Error T) :
    ∀ bs : List (T × AnyDescriptor × List AnyDescriptor),
      (∀ b ∈ bs, (tryFrom b.2.1).toOption = some b.1 ∧
        ∀ x ∈ b.2.2, (tryFrom x).toOption = none) →
      split_spec tryFrom ((bs.map fun b => b.2.1 :: b.2.2).flatten) =
        bs.map fun b => (b.1, b.2.1 :: b.2.2) := by
  intro bs
  induction bs with
  | nil =>
    intro _
    rw [List.map_nil, List.flatten_nil, split_spec]
    rfl
  | cons b bs' ih =>
    intro h
    obtain ⟨hm, hbody⟩ := h b (by simp)
    rw [List.map_cons, List.flatten_cons, List.cons_append, split_spec]
    simp only [hm]
    cases bs' with
    | nil =>
      simp only [List.map_nil, List.flatten_nil, List.append_nil]
      have htw : b.2.2.takeWhile (notMarker tryFrom) = b.2.2 :=
        takeWhile_of_all fun x hx => by simp [notMarker, hbody x hx]
      have hdw : b.2.2.dropWhile (notMarker tryFrom) = [] :=
        dropWhile_of_all fun x hx => by simp [notMarker, hbody x hx]
      rw [htw, hdw, split_spec]
      rfl
    | cons b2 bs'' =>
      obtain ⟨hm2, _⟩ := h b2 (by simp)
      rw [List.map_cons, List.flatten_cons, List.cons_append]
      have htw : (b.2.2 ++ b2.2.1 :: (b2.2.2 ++ (bs''.map fun b => b.2.1 :: b.2.2).flatten)
          ).takeWhile (notMarker tryFrom) = b.2.2 :=
        takeWhile_middle (fun x hx => by simp [notMarker, hbody x hx])
          (by simp [notMarker, hm2])
      rw [htw]
      rw [dropWhile_middle (fun x hx => by simp [notMarker, hbody x hx])
        (by simp [notMarker, hm2])]
      have := ih fun x hx => h x (by simp [hx])
      rw [List.map_cons, List.flatten_cons, List.cons_append] at this
      rw [this, List.map_cons]
      rfl

/-!
## Tree-building helper lemmas
-/

theorem collectExcept_map_ok {α β E : Type} {l : List α} {f : α → Except E β} {g : α → β}
    (h : ∀ x ∈ l, f x = .ok (g x)) : collectExcept (l.map f) = .ok (l.map g) := by
  induction l with
  | nil => rfl
  | cons x l ih =>
    rw [List.map_cons, List.map_cons]
    simp only [collectExcept]
    rw [h x (by simp), ih fun y hy => h y (by simp [hy])]

/-- `InterfaceTree::from_descriptors` never fails: it is the endpoint filter. -/
theorem interface_from_descriptors_eq (desc : InterfaceDescriptor)
    (descriptors : List AnyDescriptor) :
    InterfaceTree.from_descriptors desc descriptors =
      .ok { desc, endpoints := descriptors.filterMap fun d => (tryIntoEndpoint d).toOption } :=
  rfl

/-- `ConfigurationTree::from_descriptors` never fails: every interface build
succeeds, so it returns the grouped interfaces. -/
theorem config_from_descriptors_eq (desc : ConfigurationDescriptor)
    (descriptors : List AnyDescriptor) :
    ConfigurationTree.from_descriptors desc descriptors =
      .ok { desc,
            interfaces := (split_by_parent_desc tryIntoInterface descriptors).map fun p =>
              { desc := p.1,
                endpoints := p.2.filterMap fun d => (tryIntoEndpoint d).toOption } } := by
  unfold ConfigurationTree.from_descriptors
  have key := collectExcept_map_ok
    (l := split_by_parent_desc tryIntoInterface descriptors)
    (f := fun p => InterfaceTree.from_descriptors p.1 p.2)
    (g := fun p =>
      ({ desc := p.1, endpoints := p.2.filterMap fun d => (tryIntoEndpoint d).toOption } :
        InterfaceTree))
    (fun p _ => rfl)
  rw [key]

/-!
## Classified shape of well-formed (possibly strayed) buffers
-/

theorem mem_iface_block {i : List Nat × List (List Nat)} {x : AnyDescriptor}
    (hx : x ∈ iface_block_ds i) :
    x = .InterfaceDescriptor (InterfaceDescriptor.ofBytes i.1) ∨ ∃ e ∈ i.2, x = endpoint_ds e := by
  unfold iface_block_ds at hx
  rcases List.mem_cons.mp hx with hx | hx
  · exact Or.inl hx
  · obtain ⟨e, he, hex⟩ := List.mem_map.mp hx
    exact Or.inr ⟨e, he, hex.symm⟩

theorem mem_config_block {c : List Nat × List (List Nat) × List (List Nat × List (List Nat))}
    {x : AnyDescriptor} (hx : x ∈ config_block_ds c) :
    x = .ConfigurationDescriptor (ConfigurationDescriptor.ofBytes c.1) ∨
      (∃ e ∈ c.2.1, x = endpoint_ds e) ∨ ∃ i ∈ c.2.2, x ∈ iface_block_ds i := by
  unfold config_block_ds at hx
  rcases List.mem_cons.mp hx with hx | hx
  · exact Or.inl hx
  · rcases List.mem_append.mp hx with hx | hx
    · obtain ⟨e, he, hex⟩ := List.mem_map.mp hx
      exact Or.inr (Or.inl ⟨e, he, hex.symm⟩)
    · obtain ⟨i, hi, hix⟩ := List.mem_flatMap.mp hx
      exact Or.inr (Or.inr ⟨i, hi, hix⟩)

/-- Every classified record of the tail of a well-formed strayed buffer is a
configuration, interface or endpoint descriptor. -/
theorem tail_shapes {strayTop : List (List Nat)} {configs : StrayConfigs}
    (hs : ∀ s ∈ strayTop, WfInterfaceBytes s ∨ WfEndpointBytes s) :
    ∀ x ∈ strayTop.map classify_value ++ configs.flatMap config_block_ds,
      (∃ v, x = .ConfigurationDescriptor v) ∨ (∃ v, x = .InterfaceDescriptor v) ∨
        ∃ v, x = .EndpointDescriptor v := by
  intro x hx
  rcases List.mem_append.mp hx with hx | hx
  · obtain ⟨s, hsmem, hsx⟩ := List.mem_map.mp hx
    rcases hs s hsmem with hw | hw
    · exact Or.inr (Or.inl ⟨_, hsx.symm.trans (classify_value_interface hw)⟩)
    · exact Or.inr (Or.inr ⟨_, hsx.symm.trans (classify_value_endpoint hw)⟩)
  · obtain ⟨c, hcmem, hcx⟩ := List.mem_flatMap.mp hx
    rcases mem_config_block hcx with h | ⟨e, _, h⟩ | ⟨i, _, h⟩
    · exact Or.inl ⟨_, h⟩
    · exact Or.inr (Or.inr ⟨_, h⟩)
    · rcases mem_iface_block h with h | ⟨e, _, h⟩
      · exact Or.inr (Or.inl ⟨_, h⟩)
      · exact Or.inr (Or.inr ⟨_, h⟩)

/-- Mapping classification over the raw records of one interface block. -/
theorem iface_records_map {ifcs : List (List Nat × List (List Nat))}
    (h : ∀ i ∈ ifcs, WfInterfaceBytes i.1 ∧ ∀ e ∈ i.2, WfEndpointBytes e) :
    (ifcs.flatMap fun i => i.1 :: i.2).map classify_value = ifcs.flatMap iface_block_ds := by
  induction ifcs with
  | nil => rfl
  | cons i ifcs ih =>
    obtain ⟨hi, hes⟩ := h i (by simp)
    rw [List.flatMap_cons, List.flatMap_cons, List.map_append, List.map_cons,
      ih fun j hj => h j (by simp [hj])]
    unfold iface_block_ds
    rw [classify_value_interface hi]
    rw [List.map_congr_left fun e he => classify_value_endpoint (hes e he)]
    rfl

/-- Mapping classification over the raw records following the device record
of a claim-C10 buffer. -/
theorem stray_records_map {strayTop : List (List Nat)} {configs : StrayConfigs}
    (hc : ∀ c ∈ configs, WfConfigBytes c.1 ∧ (∀ s ∈ c.2.1, WfEndpointBytes s) ∧
      ∀ i ∈ c.2.2, WfInterfaceBytes i.1 ∧ ∀ e ∈ i.2, WfEndpointBytes e) :
    (stray_records_tail strayTop configs).map classify_value =
      strayTop.map classify_value ++ configs.flatMap config_block_ds := by
  unfold stray_records_tail
  rw [List.map_append]
  refine congrArg (strayTop.map classify_value ++ ·) ?_
  induction configs with
  | nil => rfl
  | cons c cs ih =>
    obtain ⟨hcfg, heps, hifcs⟩ := hc c (by simp)
    rw [List.flatMap_cons, List.flatMap_cons, List.map_append, List.map_cons,
      List.map_append, ih fun c' h' => hc c' (by simp [h'])]
    unfold config_block_ds
    rw [classify_value_config hcfg]
    rw [List.map_congr_left fun e he => classify_value_endpoint (heps e he)]
    rw [iface_records_map hifcs]
    rfl

theorem tryIntoConfiguration_toOption (x : AnyDescriptor) :
    (tryIntoConfiguration x).toOption =
      match x with
      | .ConfigurationDescriptor v => some v
      | _ => none := by
  cases x <;> rfl

theorem tryIntoInterface_toOption (x : AnyDescriptor) :
    (tryIntoInterface x).toOption =
      match x with
      | .InterfaceDescriptor v => some v
      | _ => none := by
  cases x <;> rfl

theorem tryIntoEndpoint_toOption (x : AnyDescriptor) :
    (tryIntoEndpoint x).toOption =
      match x with
      | .EndpointDescriptor v => some v
      | _ => none := by
  cases x <;> rfl

/-- Grouping one classified configuration block by interface markers yields
exactly its interface blocks; the configuration marker and the stray
endpoints before the first interface marker are skipped. -/
theorem split_iface_block (c : List Nat × List (List Nat) × List (List Nat × List (List Nat))) :
    split_spec tryIntoInterface (config_block_ds c) =
      c.2.2.map fun i => (InterfaceDescriptor.ofBytes i.1, iface_block_ds i) := by
  unfold config_block_ds
  have hassoc : (AnyDescriptor.ConfigurationDescriptor (ConfigurationDescriptor.ofBytes c.1) ::
      (c.2.1.map endpoint_ds ++ c.2.2.flatMap iface_block_ds)) =
      (AnyDescriptor.ConfigurationDescriptor (ConfigurationDescriptor.ofBytes c.1) ::
        c.2.1.map endpoint_ds) ++ c.2.2.flatMap iface_block_ds := by
    simp
  rw [hassoc]
  rw [split_spec_skip_pre tryIntoInterface _ _ ?hpre]
  case hpre =>
    intro d hd
    rcases List.mem_cons.mp hd with hd | hd
    · rw [hd]; rfl
    · obtain ⟨e, _, hex⟩ := List.mem_map.mp hd
      rw [← hex]; rfl
  have hflat : c.2.2.flatMap iface_block_ds =
      ((c.2.2.map fun i => ((InterfaceDescriptor.ofBytes i.1),
        (AnyDescriptor.InterfaceDescriptor (InterfaceDescriptor.ofBytes i.1)),
        (i.2.map endpoint_ds))).map fun b => b.2.1 :: b.2.2).flatten := by
    rw [List.map_map]
    rw [List.flatMap_def]
    rfl
  rw [hflat]
  rw [split_spec_blocks tryIntoInterface _ ?hbs]
  case hbs =>
    intro b hb
    obtain ⟨i, _, hib⟩ := List.mem_map.mp hb
    subst hib
    refine ⟨rfl, ?_⟩
    intro x hx
    obtain ⟨e, _, hex⟩ := List.mem_map.mp hx
    rw [← hex]
    rfl
  rw [List.map_map]
  exact List.map_congr_left fun i _ => rfl

/-- Grouping the classified sequence of a claim-C10 buffer by configuration
markers yields exactly its configuration blocks; the device record and the
stray records before the first configuration marker are skipped. -/
theorem split_config_stray {dev : List Nat} {strayTop : List (List Nat)} {configs : StrayConfigs}
    (hs : ∀ s ∈ strayTop, WfInterfaceBytes s ∨ WfEndpointBytes s) :
    split_spec tryIntoConfiguration
      (.DeviceDescriptor (DeviceDescriptor.ofBytes dev) ::
        (strayTop.map classify_value ++ configs.flatMap config_block_ds)) =
      configs.map fun c => (ConfigurationDescriptor.ofBytes c.1, config_block_ds c) := by
  have hassoc : (AnyDescriptor.DeviceDescriptor (DeviceDescriptor.ofBytes dev) ::
      (strayTop.map classify_value ++ configs.flatMap config_block_ds)) =
      (AnyDescriptor.DeviceDescriptor (DeviceDescriptor.ofBytes dev) ::
        strayTop.map classify_value) ++ configs.flatMap config_block_ds := by
    simp
  rw [hassoc]
  rw [split_spec_skip_pre tryIntoConfiguration _ _ ?hpre]
  case hpre =>
    intro d hd
    rcases List.mem_cons.mp hd with hd | hd
    · rw [hd]; rfl
    · obtain ⟨s, hsmem, hsx⟩ := List.mem_map.mp hd
      rcases hs s hsmem with hw | hw
      · rw [← hsx, classify_value_interface hw]; rfl
      · rw [← hsx, classify_value_endpoint hw]; rfl
  have hflat : configs.flatMap config_block_ds =
      ((configs.map fun c => ((ConfigurationDescriptor.ofBytes c.1),
        (AnyDescriptor.ConfigurationDescriptor (ConfigurationDescriptor.ofBytes c.1)),
        (c.2.1.map endpoint_ds ++ c.2.2.flatMap iface_block_ds))).map
          fun b => b.2.1 :: b.2.2).flatten := by
    rw [List.map_map]
    rw [List.flatMap_def]
    rfl
  rw [hflat]
  rw [split_spec_blocks tryIntoConfiguration _ ?hbs]
  case hbs =>
    intro b hb
    obtain ⟨c, _, hcb⟩ := List.mem_map.mp hb
    subst hcb
    refine ⟨rfl, ?_⟩
    intro x hx
    rcases List.mem_append.mp hx with hx | hx
    · obtain ⟨e, _, hex⟩ := List.mem_map.mp hx
      rw [← hex]
      rfl
    · obtain ⟨i, _, hix⟩ := List.mem_flatMap.mp hx
      rcases mem_iface_block hix with h | ⟨e, _, h⟩
      · rw [h]; rfl
      · rw [h]; rfl
  rw [List.map_map]
  exact List.map_congr_left fun c _ => rfl

/-- Filtering one classified interface block for endpoints returns exactly
its endpoint descriptors, in order. -/
theorem filterMap_endpoint_iface_block (i : List Nat × List (List Nat)) :
    (iface_block_ds i).filterMap (fun d => (tryIntoEndpoint d).toOption) =
      i.2.map EndpointDescriptor.ofBytes := by
  have hmap : ∀ es : List (List Nat),
      (es.map endpoint_ds).filterMap (fun d => (tryIntoEndpoint d).toOption) =
        es.map EndpointDescriptor.ofBytes := by
    intro es
    induction es with
    | nil => rfl
    | cons e es ih => rw [List.map_cons, List.filterMap_cons, List.map_cons, ← ih]; rfl
  unfold iface_block_ds
  rw [List.filterMap_cons]
  exact hmap i.2

/-- Building one configuration tree from its classified block gives its
interface blocks, each with exactly its endpoints; the stray endpoints of a
claim-C10 block appear nowhere. -/
theorem config_block_tree (c : List Nat × List (List Nat) × List (List Nat × List (List Nat))) :
    ConfigurationTree.from_descriptors (ConfigurationDescriptor.ofBytes c.1)
        (config_block_ds c) =
      .ok { desc := ConfigurationDescriptor.ofBytes c.1,
            interfaces := c.2.2.map fun i =>
              { desc := InterfaceDescriptor.ofBytes i.1,
                endpoints := i.2.map EndpointDescriptor.ofBytes } } := by
  rw [config_from_descriptors_eq]
  refine congrArg Except.ok ?_
  refine congrArg (fun l => ConfigurationTree.mk (ConfigurationDescriptor.ofBytes c.1) l) ?_
  rw [split_parent_eq_spec, split_iface_block, List.map_map]
  refine List.map_congr_left fun i _ => ?_
  show InterfaceTree.mk (InterfaceDescriptor.ofBytes i.1)
    ((iface_block_ds i).filterMap fun d => (tryIntoEndpoint d).toOption) = _
  rw [filterMap_endpoint_iface_block]

/-!
## Unfolding lemmas of the tree builder
-/

theorem from_byte_array_scan_error {data : List Nat} {e : Error}
    (h : byte_array_to_descriptors data = .error e) :
    DeviceTree.from_byte_array data = .error e := by
  unfold DeviceTree.from_byte_array
  rw [h]

theorem from_byte_array_ok_nil {data : List Nat}
    (h : byte_array_to_descriptors data = .ok []) :
    DeviceTree.from_byte_array data = .error .InvalidSize := by
  unfold DeviceTree.from_byte_array
  rw [h]

theorem from_byte_array_too_many {data : List Nat} {first : AnyDescriptor}
    {rest : List AnyDescriptor}
    (h : byte_array_to_descriptors data = .ok (first :: rest))
    (hcount : 1 < ((first :: rest).filter fun d => d.isDevice).length) :
    DeviceTree.from_byte_array data = .error .TooManyDevices := by
  unfold DeviceTree.from_byte_array
  simp only [h]
  rw [if_pos hcount]

theorem from_byte_array_not_first {data : List Nat} {first : AnyDescriptor}
    {rest : List AnyDescriptor}
    (h : byte_array_to_descriptors data = .ok (first :: rest))
    (hcount : ¬ 1 < ((first :: rest).filter fun d => d.isDevice).length)
    (hfirst : ∀ d, first ≠ .DeviceDescriptor d) :
    DeviceTree.from_byte_array data = .error .DeviceWasNotFirst := by
  unfold DeviceTree.from_byte_array
  simp only [h]
  rw [if_neg hcount]

theorem from_byte_array_device_first {data : List Nat} {desc : DeviceDescriptor}
    {rest : List AnyDescriptor}
    (h : byte_array_to_descriptors data = .ok (.DeviceDescriptor desc :: rest))
    (hcount : ¬ 1 < (((AnyDescriptor.DeviceDescriptor desc) :: rest).filter
      fun d => d.isDevice).length) :
    DeviceTree.from_byte_array data =
      match collectExcept ((split_by_parent_desc tryIntoConfiguration
          (.DeviceDescriptor desc :: rest)).map
            fun p => ConfigurationTree.from_descriptors p.1 p.2) with
      | .error e => .error e
      | .ok configurations => .ok { desc, configurations } := by
  unfold DeviceTree.from_byte_array
  simp only [h]
  rw [if_neg hcount]

/-!
## Parsing a well-formed buffer with stray records
-/

/-- Parsing a claim-C10 buffer succeeds and produces the tree of its
configuration and interface blocks, with every stray record omitted. -/
theorem from_byte_array_stray_eq (dev : List Nat) (strayTop : List (List Nat))
    (configs : StrayConfigs) (h : WfStrayInput dev strayTop configs) :
    DeviceTree.from_byte_array (stray_buffer dev strayTop configs) =
      .ok (stray_tree dev configs) := by
  obtain ⟨hdev, hs, hc⟩ := h
  have hkinds : ∀ r ∈ dev :: stray_records_tail strayTop configs,
      WfDeviceBytes r ∨ WfConfigBytes r ∨ WfInterfaceBytes r ∨ WfEndpointBytes r ∨
        OtherRecordBytes r := by
    intro r hr
    rcases List.mem_cons.mp hr with hr | hr
    · exact Or.inl (hr ▸ hdev)
    · unfold stray_records_tail at hr
      rcases List.mem_append.mp hr with hr | hr
      · rcases hs r hr with hw | hw
        · exact Or.inr (Or.inr (Or.inl hw))
        · exact Or.inr (Or.inr (Or.inr (Or.inl hw)))
      · obtain ⟨c, hcmem, hcr⟩ := List.mem_flatMap.mp hr
        obtain ⟨hcfg, heps, hifcs⟩ := hc c hcmem
        rcases List.mem_cons.mp hcr with hcr | hcr
        · exact Or.inr (Or.inl (hcr ▸ hcfg))
        · rcases List.mem_append.mp hcr with hcr | hcr
          · exact Or.inr (Or.inr (Or.inr (Or.inl (heps r hcr))))
          · obtain ⟨i, himem, hir⟩ := List.mem_flatMap.mp hcr
            obtain ⟨hifc, hies⟩ := hifcs i himem
            rcases List.mem_cons.mp hir with hir | hir
            · exact Or.inr (Or.inr (Or.inl (hir ▸ hifc)))
            · exact Or.inr (Or.inr (Or.inr (Or.inl (hies r hir))))
  have hscan : byte_array_to_descriptors (stray_buffer dev strayTop configs) =
      .ok ((dev :: stray_records_tail strayTop configs).map classify_value) :=
    scan_flatten_ok hkinds
  rw [List.map_cons, classify_value_device hdev, stray_records_map hc] at hscan
  have hnotdev : ∀ x ∈ strayTop.map classify_value ++ configs.flatMap config_block_ds,
      x.isDevice = false := by
    intro x hx
    rcases tail_shapes hs x hx with ⟨v, hv⟩ | ⟨v, hv⟩ | ⟨v, hv⟩ <;> rw [hv] <;> rfl
  have hcount : ¬ 1 < (((AnyDescriptor.DeviceDescriptor (DeviceDescriptor.ofBytes dev)) ::
      (strayTop.map classify_value ++ configs.flatMap config_block_ds)).filter
        fun d => d.isDevice).length := by
    rw [List.filter_cons]
    rw [List.filter_eq_nil_iff.mpr fun x hx => by
      simp only [hnotdev x hx]
      simp]
    simp [AnyDescriptor.isDevice]
  rw [from_byte_array_device_first hscan hcount]
  rw [split_parent_eq_spec, split_config_stray hs]
  have key := collectExcept_map_ok
    (l := configs)
    (f := fun c => ConfigurationTree.from_descriptors (ConfigurationDescriptor.ofBytes c.1)
      (config_block_ds c))
    (g := fun c =>
      ({ desc := ConfigurationDescriptor.ofBytes c.1,
         interfaces := c.2.2.map fun i =>
           { desc := InterfaceDescriptor.ofBytes i.1,
             endpoints := i.2.map EndpointDescriptor.ofBytes } } : ConfigurationTree))
    (fun c _ => config_block_tree c)
  rw [show ((configs.map fun c => (ConfigurationDescriptor.ofBytes c.1, config_block_ds c)).map
      fun p => ConfigurationTree.from_descriptors p.1 p.2) =
      configs.map fun c => ConfigurationTree.from_descriptors
        (ConfigurationDescriptor.ofBytes c.1) (config_block_ds c) from by
    rw [List.map_map]
    rfl]
  rw [key]
  rfl

/-!
## Parsing a well-formed buffer without strays (claim C1)
-/

theorem stray_records_tail_no_strays (configs : WfConfigs) :
    stray_records_tail [] (configs.map fun c => (c.1, ([] : List (List Nat)), c.2)) =
      wf_records_tail configs := by
  unfold stray_records_tail wf_records_tail
  rw [List.nil_append]
  induction configs with
  | nil => rfl
  | cons c cs ih =>
    rw [List.map_cons, List.flatMap_cons, List.flatMap_cons, ih]
    rfl

theorem stray_tree_no_strays (dev : List Nat) (configs : WfConfigs) :
    stray_tree dev (configs.map fun c => (c.1, ([] : List (List Nat)), c.2)) =
      wf_tree dev configs := by
  unfold stray_tree wf_tree
  rw [List.map_map]
  rfl

/-- Parsing a well-formed buffer (no strays) reproduces the whole structure:
counts, order and field values at every level. -/
theorem from_byte_array_wf_eq (dev : List Nat) (configs : WfConfigs)
    (h : WfInput dev configs) :
    DeviceTree.from_byte_array (wf_buffer dev configs) = .ok (wf_tree dev configs) := by
  obtain ⟨hdev, hcfg⟩ := h
  have hwf : WfStrayInput dev [] (configs.map fun c => (c.1, ([] : List (List Nat)), c.2)) := by
    refine ⟨hdev, by simp, ?_⟩
    intro c' hc'
    obtain ⟨c, hcmem, hcc⟩ := List.mem_map.mp hc'
    obtain ⟨h1, h2⟩ := hcfg c hcmem
    subst hcc
    exact ⟨h1, by simp, h2⟩
  have hmaster := from_byte_array_stray_eq dev []
    (configs.map fun c => (c.1, ([] : List (List Nat)), c.2)) hwf
  rw [stray_tree_no_strays] at hmaster
  rw [show stray_buffer dev [] (configs.map fun c => (c.1, ([] : List (List Nat)), c.2)) =
    wf_buffer dev configs from by
      unfold stray_buffer wf_buffer
      rw [stray_records_tail_no_strays]] at hmaster
  exact hmaster

/-!
## Invariance of the build under inserted unrecognized records (claim C6)
-/

theorem interleave_mem {P : List Nat → Prop} :
    ∀ {rs rs' : List (List Nat)}, Interleave P rs rs' → ∀ r ∈ rs', r ∈ rs ∨ P r := by
  intro rs rs' h
  induction h with
  | nil => intro r hr; exact absurd hr (by simp)
  | keep r' h ih =>
    intro r hr
    rcases List.mem_cons.mp hr with hr | hr
    · exact Or.inl (by simp [hr])
    · rcases ih r hr with hm | hp
      · exact Or.inl (by simp [hm])
      · exact Or.inr hp
  | ins o hP h ih =>
    intro r hr
    rcases List.mem_cons.mp hr with hr | hr
    · exact Or.inr (hr ▸ hP)
    · exact ih r hr

theorem interleave_classify {rs rs' : List (List Nat)}
    (h : Interleave OtherRecordBytes rs rs') :
    InsOthers (rs.map classify_value) (rs'.map classify_value) := by
  induction h with
  | nil => exact .nil
  | keep r h ih => exact .keep (classify_value r) ih
  | ins o hP h ih =>
    obtain ⟨_, _, h1, h2, h4, h5⟩ := hP
    rw [List.map_cons, classify_value_other h1 h2 h4 h5]
    exact .ins (byteAt o 1) ih

theorem insOthers_takeWhile_dropWhile {p : AnyDescriptor → Bool}
    (hp : ∀ t, p (.Other t) = true) :
    ∀ {ds ds' : List AnyDescriptor}, InsOthers ds ds' →
      InsOthers (ds.takeWhile p) (ds'.takeWhile p) ∧
        InsOthers (ds.dropWhile p) (ds'.dropWhile p) := by
  intro ds ds' h
  induction h with
  | nil => exact ⟨.nil, .nil⟩
  | keep d h ih =>
    by_cases hd : p d
    · rw [List.takeWhile_cons, List.takeWhile_cons, List.dropWhile_cons, List.dropWhile_cons, hd]
      simp only [if_pos]
      exact ⟨.keep d ih.1, ih.2⟩
    · rw [List.takeWhile_cons, List.takeWhile_cons, List.dropWhile_cons, List.dropWhile_cons,
        Bool.eq_false_iff.mpr hd]
      simp only [if_neg, Bool.false_eq_true, not_false_eq_true, if_false]
      exact ⟨.nil, .keep d h⟩
  | ins t h ih =>
    rw [List.takeWhile_cons, List.dropWhile_cons, hp t]
    simp only [if_pos]
    exact ⟨.ins t ih.1, ih.2⟩

theorem split_spec_insOthers {T : Type} (tryFrom : AnyDescriptor → Except Error T)
    (hO : ∀ t, (tryFrom (.Other t)).toOption = none) :
    ∀ (n : Nat) {ds ds' : List AnyDescriptor}, ds'.length ≤ n → InsOthers ds ds' →
      List.Forall₂ (fun a b => a.1 = b.1 ∧ InsOthers a.2 b.2)
        (split_spec tryFrom ds) (split_spec tryFrom ds') := by
  have hp : ∀ t, notMarker tryFrom (.Other t) = true := by
    intro t
    simp [notMarker, hO t]
  intro n
  induction n with
  | zero =>
    intro ds ds' hlen h
    cases h with
    | nil => rw [split_spec]; exact .nil
    | keep d h' => simp at hlen
    | ins t h' => simp at hlen
  | succ n ihn =>
    intro ds ds' hlen h
    cases h with
    | nil => rw [split_spec]; exact .nil
    | keep d h' =>
      rcases hd : (tryFrom d).toOption with _ | t
      · rw [split_spec, split_spec]
        simp only [hd]
        exact ihn (by simp at hlen; omega) h'
      · rw [split_spec, split_spec]
        simp only [hd]
        obtain ⟨htk, hdr⟩ := insOthers_takeWhile_dropWhile hp h'
        refine .cons ⟨rfl, .keep d htk⟩ (ihn (le_trans (dropWhile_length_le _ _) ?_) hdr)
        simp only [List.length_cons] at hlen
        omega
    | ins t h' =>
      rw [split_spec]
      simp only [hO t]
      exact ihn (by simp at hlen; omega) h'

theorem filterMap_insOthers {T : Type} (tryFrom : AnyDescriptor → Except Error T)
    (hO : ∀ t, (tryFrom (.Other t)).toOption = none) :
    ∀ {ds ds' : List AnyDescriptor}, InsOthers ds ds' →
      ds'.filterMap (fun d => (tryFrom d).toOption) =
        ds.filterMap fun d => (tryFrom d).toOption := by
  intro ds ds' h
  induction h with
  | nil => rfl
  | keep d h ih =>
    rw [List.filterMap_cons, List.filterMap_cons, ih]
  | ins t h ih =>
    rw [List.filterMap_cons, hO t, ih]

theorem filter_isDevice_insOthers :
    ∀ {ds ds' : List AnyDescriptor}, InsOthers ds ds' →
      (ds'.filter fun d => d.isDevice) = ds.filter fun d => d.isDevice := by
  intro ds ds' h
  induction h with
  | nil => rfl
  | keep d h ih => rw [List.filter_cons, List.filter_cons, ih]
  | ins t h ih => rw [List.filter_cons, ih]; rfl

theorem map_eq_of_forall₂ {α β : Type} {R : α → α → Prop} {f : α → β}
    {l l' : List α} (h : List.Forall₂ R l l') (hf : ∀ a b, R a b → f a = f b) :
    l.map f = l'.map f := by
  induction h with
  | nil => rfl
  | cons hab htail ih => rw [List.map_cons, List.map_cons, hf _ _ hab, ih]

theorem config_tree_insOthers (cd : ConfigurationDescriptor)
    {s s' : List AnyDescriptor} (h : InsOthers s s') :
    ConfigurationTree.from_descriptors cd s' = ConfigurationTree.from_descriptors cd s := by
  rw [config_from_descriptors_eq, config_from_descriptors_eq]
  refine congrArg Except.ok (congrArg (fun l => ConfigurationTree.mk cd l) ?_)
  rw [split_parent_eq_spec, split_parent_eq_spec]
  have hf2 := split_spec_insOthers tryIntoInterface (fun t => rfl) s'.length (le_refl _) h
  refine (map_eq_of_forall₂ hf2 ?_).symm
  intro a b hab
  obtain ⟨h1, h2⟩ := hab
  rw [show a.1 = b.1 from h1, filterMap_insOthers tryIntoEndpoint (fun t => rfl) h2]

theorem from_byte_array_insOthers {data data' : List Nat} {first : AnyDescriptor}
    {rest rest' : List AnyDescriptor}
    (h : byte_array_to_descriptors data = .ok (first :: rest))
    (h' : byte_array_to_descriptors data' = .ok (first :: rest'))
    (hio : InsOthers rest rest') :
    DeviceTree.from_byte_array data' = DeviceTree.from_byte_array data := by
  have hio' : InsOthers (first :: rest) (first :: rest') := .keep first hio
  unfold DeviceTree.from_byte_array
  simp only [h, h']
  rw [filter_isDevice_insOthers hio']
  by_cases hcount : 1 < ((first :: rest).filter fun d => d.isDevice).length
  · rw [if_pos hcount, if_pos hcount]
  · rw [if_neg hcount, if_neg hcount]
    cases first with
    | DeviceDescriptor desc =>
      have hf2 := split_spec_insOthers tryIntoConfiguration (fun t => rfl)
        (AnyDescriptor.DeviceDescriptor desc :: rest').length (le_refl _) hio'
      rw [split_parent_eq_spec, split_parent_eq_spec]
      rw [map_eq_of_forall₂ hf2 ?hf]
      case hf =>
        intro a b hab
        obtain ⟨h1, h2⟩ := hab
        show ConfigurationTree.from_descriptors a.1 a.2 = ConfigurationTree.from_descriptors b.1 b.2
        rw [show a.1 = b.1 from h1, config_tree_insOthers b.1 h2]
    | ConfigurationDescriptor d => rfl
    | InterfaceDescriptor d => rfl
    | EndpointDescriptor d => rfl
    | Other t => rfl

/-- Inserting well-formed unrecognized records anywhere after the device
record leaves the parse result unchanged. -/
theorem from_byte_array_with_others (dev : List Nat) (configs : WfConfigs)
    (rs' : List (List Nat)) (h : WfInput dev configs)
    (hins : Interleave OtherRecordBytes (wf_records_tail configs) rs') :
    DeviceTree.from_byte_array ((dev :: rs').flatten) = .ok (wf_tree dev configs) := by
  obtain ⟨hdev, hcfg⟩ := h
  have htailkinds : ∀ r ∈ wf_records_tail configs,
      WfDeviceBytes r ∨ WfConfigBytes r ∨ WfInterfaceBytes r ∨ WfEndpointBytes r ∨
        OtherRecordBytes r := by
    intro r hr
    unfold wf_records_tail at hr
    obtain ⟨c, hcmem, hcr⟩ := List.mem_flatMap.mp hr
    obtain ⟨hcfg1, hifcs⟩ := hcfg c hcmem
    rcases List.mem_cons.mp hcr with hcr | hcr
    · exact Or.inr (Or.inl (hcr ▸ hcfg1))
    · obtain ⟨i, himem, hir⟩ := List.mem_flatMap.mp hcr
      obtain ⟨hifc, hies⟩ := hifcs i himem
      rcases List.mem_cons.mp hir with hir | hir
      · exact Or.inr (Or.inr (Or.inl (hir ▸ hifc)))
      · exact Or.inr (Or.inr (Or.inr (Or.inl (hies r hir))))
  have hkinds' : ∀ r ∈ dev :: rs',
      WfDeviceBytes r ∨ WfConfigBytes r ∨ WfInterfaceBytes r ∨ WfEndpointBytes r ∨
        OtherRecordBytes r := by
    intro r hr
    rcases List.mem_cons.mp hr with hr | hr
    · exact Or.inl (hr ▸ hdev)
    · rcases interleave_mem hins r hr with hm | hp
      · exact htailkinds r hm
      · exact Or.inr (Or.inr (Or.inr (Or.inr hp)))
  have hkinds : ∀ r ∈ dev :: wf_records_tail configs,
      WfDeviceBytes r ∨ WfConfigBytes r ∨ WfInterfaceBytes r ∨ WfEndpointBytes r ∨
        OtherRecordBytes r := by
    intro r hr
    rcases List.mem_cons.mp hr with hr | hr
    · exact Or.inl (hr ▸ hdev)
    · exact htailkinds r hr
  have hscan' : byte_array_to_descriptors ((dev :: rs').flatten) =
      .ok (.DeviceDescriptor (DeviceDescriptor.ofBytes dev) :: rs'.map classify_value) := by
    rw [scan_flatten_ok hkinds', List.map_cons, classify_value_device hdev]
  have hscan : byte_array_to_descriptors (wf_buffer dev configs) =
      .ok (.DeviceDescriptor (DeviceDescriptor.ofBytes dev) ::
        (wf_records_tail configs).map classify_value) := by
    unfold wf_buffer
    rw [scan_flatten_ok hkinds, List.map_cons, classify_value_device hdev]
  rw [from_byte_array_insOthers hscan hscan' (interleave_classify hins)]
  exact from_byte_array_wf_eq dev configs ⟨hdev, hcfg⟩

/-!
## Per-claim support lemmas
-/

theorem from_byte_array_proceeds {data : List Nat} {desc : DeviceDescriptor}
    {rest : List AnyDescriptor}
    (h : byte_array_to_descriptors data = .ok (.DeviceDescriptor desc :: rest))
    (hcount : ¬ 1 < (((AnyDescriptor.DeviceDescriptor desc) :: rest).filter
      fun d => d.isDevice).length) :
    ∃ t : DeviceTree, DeviceTree.from_byte_array data = .ok t := by
  rw [from_byte_array_device_first h hcount]
  have key := collectExcept_map_ok
    (l := split_by_parent_desc tryIntoConfiguration (.DeviceDescriptor desc :: rest))
    (f := fun p => ConfigurationTree.from_descriptors p.1 p.2)
    (g := fun p =>
      ({ desc := p.1,
         interfaces := (split_by_parent_desc tryIntoInterface p.2).map fun q =>
           { desc := q.1,
             endpoints := q.2.filterMap fun d => (tryIntoEndpoint d).toOption } } :
        ConfigurationTree))
    (fun p _ => config_from_descriptors_eq p.1 p.2)
  rw [key]
  exact ⟨_, rfl⟩

theorem scan_ok_cons_of_big {data : List Nat} {ds : List AnyDescriptor}
    (hlen : ¬ data.length < 2) (h : byte_array_to_descriptors data = .ok ds) :
    ∃ d ds2, ds = d :: ds2 := by
  rw [byte_array_to_descriptors] at h
  rw [dif_neg hlen] at h
  by_cases h2 : byteAt data 0 < 2 ∨ data.length < byteAt data 0
  · rw [dif_pos h2] at h
    exact absurd h (by simp)
  · rw [dif_neg h2] at h
    rcases hc : classify_descriptor (data.take (byteAt data 0)) with e | d
    · rw [hc] at h
      exact absurd h (by simp)
    · rw [hc] at h
      simp only at h
      rcases hr : byte_array_to_descriptors (data.drop (byteAt data 0)) with e | rest
      · rw [hr] at h
        exact absurd h (by simp)
      · rw [hr] at h
        simp only at h
        injection h with h3
        exact ⟨d, rest, h3.symm⟩

theorem scan_ok_nil_iff {data : List Nat} {ds : List AnyDescriptor}
    (h : byte_array_to_descriptors data = .ok ds) : ds = [] ↔ data.length < 2 := by
  constructor
  · intro hnil
    by_contra hlen
    obtain ⟨d, ds2, hcons⟩ := scan_ok_cons_of_big hlen h
    rw [hcons] at hnil
    exact absurd hnil (by simp)
  · intro hlen
    rw [scan_short hlen] at h
    injection h with h2
    exact h2.symm

/-- The scanner emits at most `n / 2` records from an `n`-byte buffer. -/
theorem scan_length_le {data : List Nat} {ds : List AnyDescriptor}
    (h : byte_array_to_descriptors data = .ok ds) : ds.length ≤ data.length / 2 := by
  by_cases hlen : data.length < 2
  · rw [scan_short hlen] at h
    injection h with h2
    rw [← h2]
    simp
  · rw [byte_array_to_descriptors] at h
    rw [dif_neg hlen] at h
    by_cases h2 : byteAt data 0 < 2 ∨ data.length < byteAt data 0
    · rw [dif_pos h2] at h
      exact absurd h (by simp)
    · rw [dif_neg h2] at h
      rcases hc : classify_descriptor (data.take (byteAt data 0)) with e | d
      · rw [hc] at h
        exact absurd h (by simp)
      · rw [hc] at h
        simp only at h
        rcases hr : byte_array_to_descriptors (data.drop (byteAt data 0)) with e | rest
        · rw [hr] at h
          exact absurd h (by simp)
        · rw [hr] at h
          simp only at h
          injection h with h3
          have ih := scan_length_le hr
          rw [List.length_drop] at ih
          rw [← h3, List.length_cons]
          omega
termination_by data.length
decreasing_by
  simp only [List.length_drop]
  omega

theorem find_interface_none {interfaces : List InterfaceTree} {addr : Nat}
    (h : ∀ i ∈ interfaces, ∀ e ∈ i.endpoints, e.bEndpointAddress ≠ addr) :
    find_interface_for_endpoint interfaces addr = none := by
  induction interfaces with
  | nil => rfl
  | cons i rest ih =>
    rw [find_interface_for_endpoint]
    rw [if_neg ?hno]
    case hno =>
      simp only [List.any_eq_true, beq_iff_eq, not_exists]
      intro e
      intro hcontra
      exact h i (by simp) e hcontra.1 hcontra.2
    exact ih fun j hj => h j (by simp [hj])

theorem find_interface_first {pre post : List InterfaceTree} {i : InterfaceTree} {addr : Nat}
    (hpre : ∀ j ∈ pre, ∀ e ∈ j.endpoints, e.bEndpointAddress ≠ addr)
    (hi : ∃ e ∈ i.endpoints, e.bEndpointAddress = addr) :
    find_interface_for_endpoint (pre ++ i :: post) addr = some i.desc.bInterfaceNumber := by
  induction pre with
  | nil =>
    rw [List.nil_append, find_interface_for_endpoint]
    rw [if_pos ?hyes]
    case hyes =>
      simp only [List.any_eq_true, beq_iff_eq]
      exact hi
  | cons j pre' ih =>
    rw [List.cons_append, find_interface_for_endpoint]
    rw [if_neg ?hno]
    case hno =>
      simp only [List.any_eq_true, beq_iff_eq, not_exists]
      intro e hcontra
      exact hpre j (by simp) e hcontra.1 hcontra.2
    exact ih fun j' hj' => hpre j' (by simp [hj'])

theorem byteAt_append {r extra : List Nat} {i : Nat} (h : i < r.length) :
    byteAt (r ++ extra) i = byteAt r i := by
  unfold byteAt
  exact List.getD_append _ _ _ _ h

theorem u16le_append {r extra : List Nat} {i : Nat} (h : i + 1 < r.length) :
    u16le (r ++ extra) i = u16le r i := by
  unfold u16le
  rw [byteAt_append (by omega), byteAt_append (by omega)]

theorem device_ofBytes_append {r extra : List Nat} (h : 18 ≤ r.length) :
    DeviceDescriptor.ofBytes (r ++ extra) = DeviceDescriptor.ofBytes r := by
  unfold DeviceDescriptor.ofBytes
  rw [byteAt_append (by omega), byteAt_append (by omega), byteAt_append (by omega),
    byteAt_append (by omega), byteAt_append (by omega), byteAt_append (by omega),
    byteAt_append (by omega), byteAt_append (by omega), byteAt_append (by omega),
    byteAt_append (by omega), u16le_append (by omega), u16le_append (by omega),
    u16le_append (by omega), u16le_append (by omega)]

theorem config_ofBytes_append {r extra : List Nat} (h : 9 ≤ r.length) :
    ConfigurationDescriptor.ofBytes (r ++ extra) = ConfigurationDescriptor.ofBytes r := by
  unfold ConfigurationDescriptor.ofBytes
  rw [byteAt_append (by omega), byteAt_append (by omega), byteAt_append (by omega),
    byteAt_append (by omega), byteAt_append (by omega), byteAt_append (by omega),
    byteAt_append (by omega), u16le_append (by omega)]

theorem interface_ofBytes_append {r extra : List Nat} (h : 9 ≤ r.length) :
    InterfaceDescriptor.ofBytes (r ++ extra) = InterfaceDescriptor.ofBytes r := by
  unfold InterfaceDescriptor.ofBytes
  rw [byteAt_append (by omega), byteAt_append (by omega), byteAt_append (by omega),
    byteAt_append (by omega), byteAt_append (by omega), byteAt_append (by omega),
    byteAt_append (by omega), byteAt_append (by omega), byteAt_append (by omega)]

theorem endpoint_ofBytes_append {r extra : List Nat} (h : 7 ≤ r.length) :
    EndpointDescriptor.ofBytes (r ++ extra) = EndpointDescriptor.ofBytes r := by
  unfold EndpointDescriptor.ofBytes
  rw [byteAt_append (by omega), byteAt_append (by omega), byteAt_append (by omega),
    byteAt_append (by omega), byteAt_append (by omega), u16le_append (by omega)]

theorem classify_tag_one {r : List Nat} (hb : byteAt r 1 = 1) :
    classify_descriptor r =
      if r.length < 18 then .error .InvalidSize
      else .ok (.DeviceDescriptor (DeviceDescriptor.ofBytes r)) := by
  unfold classify_descriptor parse_descriptor
  rw [hb]
  by_cases hc : r.length < 18 <;> simp [hc, Except.map]

theorem classify_tag_two {r : List Nat} (hb : byteAt r 1 = 2) :
    classify_descriptor r =
      if r.length < 9 then .error .InvalidSize
      else .ok (.ConfigurationDescriptor (ConfigurationDescriptor.ofBytes r)) := by
  unfold classify_descriptor parse_descriptor
  rw [hb]
  by_cases hc : r.length < 9 <;> simp [hc, Except.map]

theorem classify_tag_four {r : List Nat} (hb : byteAt r 1 = 4) :
    classify_descriptor r =
      if r.length < 9 then .error .InvalidSize
      else .ok (.InterfaceDescriptor (InterfaceDescriptor.ofBytes r)) := by
  unfold classify_descriptor parse_descriptor
  rw [hb]
  by_cases hc : r.length < 9 <;> simp [hc, Except.map]

theorem classify_tag_five {r : List Nat} (hb : byteAt r 1 = 5) :
    classify_descriptor r =
      if r.length < 7 then .error .InvalidSize
      else .ok (.EndpointDescriptor (EndpointDescriptor.ofBytes r)) := by
  unfold classify_descriptor parse_descriptor
  rw [hb]
  by_cases hc : r.length < 7 <;> simp [hc, Except.map]

theorem slices_length {T : Type} (ds : List AnyDescriptor) :
    ∀ sps : List (Nat × T), (slices_of_split_points ds sps).length = sps.length := by
  intro sps
  induction sps with
  | nil => rfl
  | cons q rest ih =>
    cases rest with
    | nil => rfl
    | cons q2 rest2 =>
      simp only [slices_of_split_points, List.length_cons] at ih ⊢
      omega

theorem split_points_length {T : Type} (tryFrom : AnyDescriptor → Except Error T) :
    ∀ ds : List AnyDescriptor, (split_points tryFrom ds).length =
      (ds.filter fun d => ((tryFrom d).toOption).isSome).length := by
  intro ds
  induction ds with
  | nil => rfl
  | cons d rest ih =>
    rw [split_points_cons, List.filter_cons]
    rcases hd : (tryFrom d).toOption with _ | t
    · simp only [hd, Option.isNone_none, List.length_map, Option.isSome_none,
        Bool.false_eq_true, if_false]
      exact ih
    · simp only [hd, Option.isSome_some, if_true, List.length_cons, List.length_map]
      rw [ih]

theorem split_points_nil_of_all_none {T : Type} {tryFrom : AnyDescriptor → Except Error T}
    {ds : List AnyDescriptor} (h : ∀ d ∈ ds, (tryFrom d).toOption = none) :
    split_points tryFrom ds = [] := by
  induction ds with
  | nil => rfl
  | cons d rest ih =>
    rw [split_points_cons, h d (by simp)]
    rw [ih fun x hx => h x (by simp [hx])]
    rfl

/-!
## Claim theorems
-/

/-- C1: for every well-formed input buffer formed by concatenating one
18-byte device descriptor, then N configuration blocks (each a 9-byte
configuration descriptor followed by M interface blocks, each a 9-byte
interface descriptor followed by K 7-byte endpoint descriptors),
`DeviceTree::from_byte_array` succeeds and returns the tree with exactly
those configurations, interfaces and endpoints, in source order, every field
decoded from the corresponding input bytes (little-endian for multi-byte
fields). -/
theorem spec_claim_C1 (dev : List Nat) (configs : WfConfigs) (h : WfInput dev configs) :
    DeviceTree.from_byte_array (wf_buffer dev configs) = .ok (wf_tree dev configs) :=
  from_byte_array_wf_eq dev configs h

theorem spec_claim_C1_witness :
    WfInput [18, 1, 0, 0, 0, 0, 0, 0, 0, 0, 0, 0, 0, 0, 0, 0, 0, 1]
      [([9, 2, 0, 0, 0, 0, 0, 0, 0],
        [([9, 4, 0, 0, 0, 0, 0, 0, 0], [[7, 5, 129, 0, 0, 0, 0]])])] ∧
    DeviceTree.from_byte_array
        (wf_buffer [18, 1, 0, 0, 0, 0, 0, 0, 0, 0, 0, 0, 0, 0, 0, 0, 0, 1]
          [([9, 2, 0, 0, 0, 0, 0, 0, 0],
            [([9, 4, 0, 0, 0, 0, 0, 0, 0], [[7, 5, 129, 0, 0, 0, 0]])])]) =
      .ok (wf_tree [18, 1, 0, 0, 0, 0, 0, 0, 0, 0, 0, 0, 0, 0, 0, 0, 0, 1]
        [([9, 2, 0, 0, 0, 0, 0, 0, 0],
          [([9, 4, 0, 0, 0, 0, 0, 0, 0], [[7, 5, 129, 0, 0, 0, 0]])])]) :=
  ⟨by decide, spec_claim_C1 _ _ (by decide)⟩

/-- C2: on every buffer whose scan-and-classify phase succeeds, the builder
checks, in order: empty sequence (equivalent to an input of fewer than 2
bytes) gives `InvalidSize`; more than one device record anywhere gives
`TooManyDevices` (regardless of what the first record is); a non-device
first record gives `DeviceWasNotFirst`; otherwise the build proceeds and
succeeds. -/
theorem spec_claim_C2 (data : List Nat) (ds : List AnyDescriptor)
    (h : byte_array_to_descriptors data = .ok ds) :
    (ds = [] ↔ data.length < 2) ∧
    (ds = [] → DeviceTree.from_byte_array data = .error .InvalidSize) ∧
    (∀ first rest, ds = first :: rest →
      1 < ((first :: rest).filter fun d => d.isDevice).length →
      DeviceTree.from_byte_array data = .error .TooManyDevices) ∧
    (∀ first rest, ds = first :: rest →
      ¬ 1 < ((first :: rest).filter fun d => d.isDevice).length →
      (∀ d, first ≠ .DeviceDescriptor d) →
      DeviceTree.from_byte_array data = .error .DeviceWasNotFirst) ∧
    (∀ desc rest, ds = .DeviceDescriptor desc :: rest →
      ¬ 1 < (((AnyDescriptor.DeviceDescriptor desc) :: rest).filter fun d => d.isDevice).length →
      ∃ t, DeviceTree.from_byte_array data = .ok t) := by
  refine ⟨scan_ok_nil_iff h, ?_, ?_, ?_, ?_⟩
  · intro hnil
    exact from_byte_array_ok_nil (hnil ▸ h)
  · intro first rest hds hcount
    exact from_byte_array_too_many (hds ▸ h) hcount
  · intro first rest hds hcount hfirst
    exact from_byte_array_not_first (hds ▸ h) hcount hfirst
  · intro desc rest hds hcount
    exact from_byte_array_proceeds (hds ▸ h) hcount

theorem spec_claim_C2_witness :
    byte_array_to_descriptors [2, 99] = .ok [.Other 99] ∧
    DeviceTree.from_byte_array [2, 99] = .error .DeviceWasNotFirst := by
  have h : byte_array_to_descriptors [2, 99] = .ok [.Other 99] := by
    simp [byte_array_to_descriptors, classify_descriptor, byteAt]
  exact ⟨h, (spec_claim_C2 [2, 99] [.Other 99] h).2.2.2.1 _ _ rfl (by decide)
    fun d hd => AnyDescriptor.noConfusion hd⟩

/-- C3: the fused scan-and-classify loop `byte_array_to_descriptors` is the
raw-record scanner of the specification (consume from offset 0 while at
least 2 bytes remain; on declared length `l < 2` or `l` past the end fail
with `InvalidSize` and return nothing; otherwise emit the `l`-byte record
and advance by exactly `l`) composed with per-record classification. -/
theorem spec_claim_C3 (data : List Nat) :
    byte_array_to_descriptors data =
      (scan_records data).bind fun rs => collectExcept (rs.map classify_descriptor) :=
  scan_decompose data

/-- C4: the classifier dispatches on the type tag at byte index 1 (1 gives
an 18-byte device, 2 a 9-byte configuration, 4 a 9-byte interface, 5 a
7-byte endpoint, anything else `Other` with that tag and no length check);
for the known tags it fails with `InvalidSize` exactly when the record is
shorter than the fixed structure, and trailing bytes beyond the fixed
structure are ignored. -/
theorem spec_claim_C4 (record : List Nat) (h : 2 ≤ record.length) :
    (byteAt record 1 = 1 → classify_descriptor record =
      if record.length < 18 then .error .InvalidSize
      else .ok (.DeviceDescriptor (DeviceDescriptor.ofBytes record))) ∧
    (byteAt record 1 = 2 → classify_descriptor record =
      if record.length < 9 then .error .InvalidSize
      else .ok (.ConfigurationDescriptor (ConfigurationDescriptor.ofBytes record))) ∧
    (byteAt record 1 = 4 → classify_descriptor record =
      if record.length < 9 then .error .InvalidSize
      else .ok (.InterfaceDescriptor (InterfaceDescriptor.ofBytes record))) ∧
    (byteAt record 1 = 5 → classify_descriptor record =
      if record.length < 7 then .error .InvalidSize
      else .ok (.EndpointDescriptor (EndpointDescriptor.ofBytes record))) ∧
    (byteAt record 1 ≠ 1 → byteAt record 1 ≠ 2 → byteAt record 1 ≠ 4 → byteAt record 1 ≠ 5 →
      classify_descriptor record = .ok (.Other (byteAt record 1))) ∧
    (∀ extra, byteAt record 1 = 1 → 18 ≤ record.length →
      classify_descriptor (record ++ extra) = classify_descriptor record) ∧
    (∀ extra, byteAt record 1 = 2 → 9 ≤ record.length →
      classify_descriptor (record ++ extra) = classify_descriptor record) ∧
    (∀ extra, byteAt record 1 = 4 → 9 ≤ record.length →
      classify_descriptor (record ++ extra) = classify_descriptor record) ∧
    (∀ extra, byteAt record 1 = 5 → 7 ≤ record.length →
      classify_descriptor (record ++ extra) = classify_descriptor record) := by
  refine ⟨classify_tag_one, classify_tag_two, classify_tag_four, classify_tag_five,
    classify_tag_other, ?_, ?_, ?_, ?_⟩
  · intro extra hb hlen
    have hb' : byteAt (record ++ extra) 1 = 1 := by
      rw [byteAt_append (by omega)]
      exact hb
    rw [classify_tag_one hb', classify_tag_one hb, if_neg (by simp; omega), if_neg (by omega),
      device_ofBytes_append hlen]
  · intro extra hb hlen
    have hb' : byteAt (record ++ extra) 1 = 2 := by
      rw [byteAt_append (by omega)]
      exact hb
    rw [classify_tag_two hb', classify_tag_two hb, if_neg (by simp; omega), if_neg (by omega),
      config_ofBytes_append hlen]
  · intro extra hb hlen
    have hb' : byteAt (record ++ extra) 1 = 4 := by
      rw [byteAt_append (by omega)]
      exact hb
    rw [classify_tag_four hb', classify_tag_four hb, if_neg (by simp; omega), if_neg (by omega),
      interface_ofBytes_append hlen]
  · intro extra hb hlen
    have hb' : byteAt (record ++ extra) 1 = 5 := by
      rw [byteAt_append (by omega)]
      exact hb
    rw [classify_tag_five hb', classify_tag_five hb, if_neg (by simp; omega), if_neg (by omega),
      endpoint_ofBytes_append hlen]

theorem spec_claim_C4_witness :
    2 ≤ ([7, 5, 129, 0, 0, 0, 0] : List Nat).length ∧
    classify_descriptor [7, 5, 129, 0, 0, 0, 0] =
      (if ([7, 5, 129, 0, 0, 0, 0] : List Nat).length < 7 then .error .InvalidSize
       else .ok (.EndpointDescriptor (EndpointDescriptor.ofBytes [7, 5, 129, 0, 0, 0, 0]))) :=
  ⟨by decide, (spec_claim_C4 [7, 5, 129, 0, 0, 0, 0] (by decide)).2.2.2.1 (by decide)⟩

/-- C5: the hierarchical grouper returns one (marker, children-slice) pair
per record of the marker type, in source order; each children slice starts
with the marker itself and extends up to (but not including) the next
marker, or to the end of the sequence; with no marker the output is empty. -/
theorem spec_claim_C5 {T : Type} (tryFrom : AnyDescriptor → Except Error T)
    (ds : List AnyDescriptor) :
    split_by_parent_desc tryFrom ds = split_spec tryFrom ds ∧
    (split_by_parent_desc tryFrom ds).length =
      (ds.filter fun d => ((tryFrom d).toOption).isSome).length ∧
    ((∀ d ∈ ds, (tryFrom d).toOption = none) → split_by_parent_desc tryFrom ds = []) := by
  refine ⟨split_parent_eq_spec tryFrom ds, ?_, ?_⟩
  · unfold split_by_parent_desc
    rw [slices_length, split_points_length]
  · intro hall
    unfold split_by_parent_desc
    rw [split_points_nil_of_all_none hall]
    rfl

/-- C6: inserting any number of records with unrecognized type tags
(declared length at least 2, matching the record length) at any positions
after the first record of a well-formed buffer leaves the build successful
and the resulting tree unchanged; the inserted records appear nowhere in
the tree. -/
theorem spec_claim_C6 (dev : List Nat) (configs : WfConfigs) (rs' : List (List Nat))
    (h : WfInput dev configs)
    (hins : Interleave OtherRecordBytes (wf_records_tail configs) rs') :
    DeviceTree.from_byte_array ((dev :: rs').flatten) = .ok (wf_tree dev configs) :=
  from_byte_array_with_others dev configs rs' h hins

theorem spec_claim_C6_witness :
    WfInput [18, 1, 0, 0, 0, 0, 0, 0, 0, 0, 0, 0, 0, 0, 0, 0, 0, 1]
      [([9, 2, 0, 0, 0, 0, 0, 0, 0],
        [([9, 4, 0, 0, 0, 0, 0, 0, 0], [[7, 5, 129, 0, 0, 0, 0]])])] ∧
    Interleave OtherRecordBytes
      (wf_records_tail [([9, 2, 0, 0, 0, 0, 0, 0, 0],
        [([9, 4, 0, 0, 0, 0, 0, 0, 0], [[7, 5, 129, 0, 0, 0, 0]])])])
      [[9, 2, 0, 0, 0, 0, 0, 0, 0], [2, 99], [9, 4, 0, 0, 0, 0, 0, 0, 0],
        [7, 5, 129, 0, 0, 0, 0], [3, 200, 7]] ∧
    DeviceTree.from_byte_array
        (([18, 1, 0, 0, 0, 0, 0, 0, 0, 0, 0, 0, 0, 0, 0, 0, 0, 1] ::
          [[9, 2, 0, 0, 0, 0, 0, 0, 0], [2, 99], [9, 4, 0, 0, 0, 0, 0, 0, 0],
            [7, 5, 129, 0, 0, 0, 0], [3, 200, 7]]).flatten) =
      .ok (wf_tree [18, 1, 0, 0, 0, 0, 0, 0, 0, 0, 0, 0, 0, 0, 0, 0, 0, 1]
        [([9, 2, 0, 0, 0, 0, 0, 0, 0],
          [([9, 4, 0, 0, 0, 0, 0, 0, 0], [[7, 5, 129, 0, 0, 0, 0]])])]) := by
  have hins : Interleave OtherRecordBytes
      (wf_records_tail [([9, 2, 0, 0, 0, 0, 0, 0, 0],
        [([9, 4, 0, 0, 0, 0, 0, 0, 0], [[7, 5, 129, 0, 0, 0, 0]])])])
      [[9, 2, 0, 0, 0, 0, 0, 0, 0], [2, 99], [9, 4, 0, 0, 0, 0, 0, 0, 0],
        [7, 5, 129, 0, 0, 0, 0], [3, 200, 7]] :=
    .keep _ (.ins _ (by decide) (.keep _ (.keep _ (.ins _ (by decide) .nil))))
  exact ⟨by decide, hins, spec_claim_C6 _ _ _ (by decide) hins⟩

/-- C7: the public parse entry point never surfaces `InvalidType`: every run
either succeeds or fails with `InvalidSize`, `TooManyDevices` or
`DeviceWasNotFirst` (the fallible narrowing conversions that produce
`InvalidType` are all discarded with `.ok()` at the call sites reached from
`from_byte_array`). -/
theorem spec_claim_C7 (data : List Nat) :
    (∃ t, DeviceTree.from_byte_array data = .ok t) ∨
    DeviceTree.from_byte_array data = .error .InvalidSize ∨
    DeviceTree.from_byte_array data = .error .TooManyDevices ∨
    DeviceTree.from_byte_array data = .error .DeviceWasNotFirst := by
  rcases hscan : byte_array_to_descriptors data with e | ds
  · have he := scan_error_eq hscan
    subst he
    exact Or.inr (Or.inl (from_byte_array_scan_error hscan))
  · cases ds with
    | nil => exact Or.inr (Or.inl (from_byte_array_ok_nil hscan))
    | cons first rest =>
      by_cases hcount : 1 < ((first :: rest).filter fun d => d.isDevice).length
      · exact Or.inr (Or.inr (Or.inl (from_byte_array_too_many hscan hcount)))
      · cases first with
        | DeviceDescriptor desc => exact Or.inl (from_byte_array_proceeds hscan hcount)
        | ConfigurationDescriptor d =>
          exact Or.inr (Or.inr (Or.inr (from_byte_array_not_first hscan hcount
            fun d' hd' => AnyDescriptor.noConfusion hd')))
        | InterfaceDescriptor d =>
          exact Or.inr (Or.inr (Or.inr (from_byte_array_not_first hscan hcount
            fun d' hd' => AnyDescriptor.noConfusion hd')))
        | EndpointDescriptor d =>
          exact Or.inr (Or.inr (Or.inr (from_byte_array_not_first hscan hcount
            fun d' hd' => AnyDescriptor.noConfusion hd')))
        | Other t =>
          exact Or.inr (Or.inr (Or.inr (from_byte_array_not_first hscan hcount
            fun d' hd' => AnyDescriptor.noConfusion hd')))

/-- C8: the scanner terminates on every buffer (it is a total function) and
emits at most `n / 2` records from an `n`-byte buffer, because every
successful step advances by the declared length, which is at least 2. -/
theorem spec_claim_C8 (data : List Nat) (ds : List AnyDescriptor)
    (h : byte_array_to_descriptors data = .ok ds) :
    ds.length ≤ data.length / 2 :=
  scan_length_le h

theorem spec_claim_C8_witness :
    byte_array_to_descriptors [2, 99, 3, 98, 0] = .ok [.Other 99, .Other 98] ∧
    ([AnyDescriptor.Other 99, .Other 98].length ≤ ([2, 99, 3, 98, 0] : List Nat).length / 2) := by
  have h : byte_array_to_descriptors [2, 99, 3, 98, 0] = .ok [.Other 99, .Other 98] := by
    simp [byte_array_to_descriptors, classify_descriptor, byteAt]
  exact ⟨h, spec_claim_C8 [2, 99, 3, 98, 0] [.Other 99, .Other 98] h⟩

/-- C9: the endpoint lookup of `claim_endpoint` inspects only the first
configuration: with no configurations, or when the first configuration has
no endpoint with the requested address, it fails with `InvalidEndpoint`
(regardless of any later configuration); otherwise it returns the interface
number of the first interface, in source order, owning such an endpoint. -/
theorem spec_claim_C9 (tree : DeviceTree) (addr : Nat) :
    (tree.configurations = [] → claim_endpoint_lookup tree addr = .error .InvalidEndpoint) ∧
    (∀ c cs, tree.configurations = c :: cs →
      (∀ i ∈ c.interfaces, ∀ e ∈ i.endpoints, e.bEndpointAddress ≠ addr) →
      claim_endpoint_lookup tree addr = .error .InvalidEndpoint) ∧
    (∀ c cs pre i post, tree.configurations = c :: cs →
      c.interfaces = pre ++ i :: post →
      (∀ j ∈ pre, ∀ e ∈ j.endpoints, e.bEndpointAddress ≠ addr) →
      (∃ e ∈ i.endpoints, e.bEndpointAddress = addr) →
      claim_endpoint_lookup tree addr = .ok i.desc.bInterfaceNumber) := by
  refine ⟨?_, ?_, ?_⟩
  · intro h
    unfold claim_endpoint_lookup
    rw [h]
  · intro c cs h hno
    unfold claim_endpoint_lookup
    simp only [h]
    rw [find_interface_none hno]
  · intro c cs pre i post h hifc hpre hi
    unfold claim_endpoint_lookup
    simp only [h]
    rw [hifc, find_interface_first hpre hi]

/-- C10: recognized records placed before the first marker of their grouping
level are silently omitted: interface and endpoint records between the
device record and the first configuration record appear in no configuration,
and endpoint records inside a configuration before its first interface
record appear in no interface; the build still succeeds and is otherwise
unchanged. -/
theorem spec_claim_C10 (dev : List Nat) (strayTop : List (List Nat)) (configs : StrayConfigs)
    (h : WfStrayInput dev strayTop configs) :
    DeviceTree.from_byte_array (stray_buffer dev strayTop configs) =
      .ok (stray_tree dev configs) :=
  from_byte_array_stray_eq dev strayTop configs h

theorem spec_claim_C10_witness :
    WfStrayInput [18, 1, 0, 0, 0, 0, 0, 0, 0, 0, 0, 0, 0, 0, 0, 0, 0, 1]
      [[9, 4, 0, 0, 0, 0, 0, 0, 0], [7, 5, 1, 0, 0, 0, 0]]
      [([9, 2, 0, 0, 0, 0, 0, 0, 0], [[7, 5, 2, 0, 0, 0, 0]],
        [([9, 4, 1, 0, 0, 0, 0, 0, 0], [[7, 5, 129, 0, 0, 0, 0]])])] ∧
    DeviceTree.from_byte_array
        (stray_buffer [18, 1, 0, 0, 0, 0, 0, 0, 0, 0, 0, 0, 0, 0, 0, 0, 0, 1]
          [[9, 4, 0, 0, 0, 0, 0, 0, 0], [7, 5, 1, 0, 0, 0, 0]]
          [([9, 2, 0, 0, 0, 0, 0, 0, 0], [[7, 5, 2, 0, 0, 0, 0]],
            [([9, 4, 1, 0, 0, 0, 0, 0, 0], [[7, 5, 129, 0, 0, 0, 0]])])]) =
      .ok (stray_tree [18, 1, 0, 0, 0, 0, 0, 0, 0, 0, 0, 0, 0, 0, 0, 0, 0, 1]
        [([9, 2, 0, 0, 0, 0, 0, 0, 0], [[7, 5, 2, 0, 0, 0, 0]],
          [([9, 4, 1, 0, 0, 0, 0, 0, 0], [[7, 5, 129, 0, 0, 0, 0]])])]) :=
  ⟨by decide, spec_claim_C10 _ _ _ (by decide)⟩
